import Mathlib

/-!
# Verification of the `bsb` BSB wire/value codec

Shallow embedding of the `bsb` crate (frame codec, typed value codec, field
registry binding, field-values) and proofs about it.

Conventions of the embedding:
* Rust machine integers (`u8`, `u16`, `u32`) become `Nat`; where the source
  performs a masking/shifting operation on a fixed-width integer, the model
  uses the equivalent `% 2 ^ w` / `/ 2 ^ w` arithmetic, and theorems carry the
  width bounds (`< 256`, `< 65536`, `< 2 ^ 32`) that the Rust types guarantee.
* Byte buffers (`&[u8]`, `Vec<u8>`) become `List Nat` of values `< 256`.
* Fallible Rust functions returning `Result<_, BsbError>` become
  `Except BsbError _`.
* `f32` is idealised as exact rational arithmetic (`ℚ`); every place this
  matters is documented at the definition.
* Rust `String`/`&str` becomes `List Char`.
-/

set_option maxRecDepth 10000

/-! ## Frame codec (src/frame.rs, src/frame/parser.rs, src/frame/serializer.rs) -/

/-- BSB start-of-frame byte, `SOF` in src/frame.rs. -/
def SOF : Nat := 0xdc

/-- `Frame` from src/frame.rs: addresses and packet type are `u8`, the field
identifier a `u32`, the payload a byte vector. -/
structure Frame where
  destination_address : Nat
  source_address : Nat
  packet_type : Nat
  field_id : Nat
  payload : List Nat
deriving DecidableEq, Repr

/-- Well-formedness that the Rust types enforce: `u8` fields are below 256,
the `u32` field id below `2 ^ 32`, and payload entries are bytes. -/
def Frame.wf (f : Frame) : Prop :=
  f.destination_address < 256 ∧ f.source_address < 256 ∧ f.packet_type < 256 ∧
    f.field_id < 2 ^ 32 ∧ ∀ b ∈ f.payload, b < 256

instance : DecidablePred Frame.wf := fun f => by
  unfold Frame.wf; infer_instance

/-- One shift-xor round of CRC-16/XMODEM (poly `0x1021`, no reflection):
if bit 15 of the accumulator is set, shift left and xor the polynomial,
otherwise just shift; in both cases the result is truncated to 16 bits.
Models one inner-loop step of the `crc16` crate's `XMODEM` state update
used by `FrameParser::frame_parser` and `FrameSerializer::serialize`.
The bit-15 test `crc & 0x8000 != 0` is written `crc / 0x8000 % 2 = 1`. -/
def crcStep (crc : Nat) : Nat :=
  if crc / 0x8000 % 2 = 1 then ((crc * 2) ^^^ 0x1021) % 65536 else crc * 2 % 65536

/-- Feed one input byte into the CRC-16/XMODEM accumulator: xor the byte into
the high accumulator byte (the byte is `u8`, hence the `% 256`), then run
eight `crcStep` rounds. -/
def crcFeed (crc b : Nat) : Nat :=
  crcStep (crcStep (crcStep (crcStep (crcStep (crcStep (crcStep (crcStep
    (crc ^^^ (b % 256 * 256)))))))))

/-- CRC-16/XMODEM over a byte list, initial value 0:
`crc16::State::<crc16::XMODEM>::calculate`. -/
def crc16 (bs : List Nat) : Nat := bs.foldl crcFeed 0

/-- Big-endian bytes of a `u16` (`u16::to_be_bytes`). -/
def beBytes16 (n : Nat) : List Nat := [n / 256 % 256, n % 256]

/-- Big-endian bytes of a `u32` (`u32::to_be_bytes` / cookie-factory `be_u32`). -/
def beBytes32 (n : Nat) : List Nat :=
  [n / 16777216 % 256, n / 65536 % 256, n / 256 % 256, n % 256]

/-- The conditional byte-order transform applied to `field_id` for packet
types Set (3) and Get (6).  Models the Rust expression appearing verbatim in
both `FrameParser::frame_parser` and `FrameSerializer::serialize`:

  `(id & 0x0000_ffff) | ((id >> 8) & 0x00ff_0000) | ((id << 8) & 0xff00_0000)`

on a `u32`.  The three masked parts occupy disjoint bit ranges, so the
bitwise ors are sums; `id & 0xffff` is `id % 2 ^ 16`; `(id >> 8) & 0xff0000`
moves bits 24..31 of `id` down to bits 16..23 (`id / 2 ^ 24 % 256 * 2 ^ 16`);
`(id << 8) & 0xff00_0000` moves bits 16..23 of `id` up to bits 24..31
(`id / 2 ^ 16 % 256 * 2 ^ 24`).  In byte terms it swaps the two most
significant bytes of the 32-bit word. -/
def swap_field_id (id : Nat) : Nat :=
  id % 65536 + id / 16777216 % 256 * 65536 + id / 65536 % 256 * 16777216

/-- The wire 32-bit word written/read for a frame's `field_id`:
swapped for Set (3) and Get (6), plain otherwise. -/
def wireFieldId (packet_type id : Nat) : Nat :=
  if packet_type = 3 ∨ packet_type = 6 then swap_field_id id else id

/-- `FrameSerializer::serialize`: header, conditionally swapped field id and
payload, followed by the CRC-16/XMODEM of everything before it.  The
`source_address` is xored with `0x80` on the wire.  (The Rust code would
panic converting `header_length` to `u8` if the payload exceeded 244 bytes;
all theorems below stay far below that.) -/
def Frame.serialize (f : Frame) : List Nat :=
  let header_length := f.payload.length + 4 + 4 + 2 + 1
  let msg := [SOF, f.source_address ^^^ 0x80, f.destination_address,
    header_length, f.packet_type] ++
    beBytes32 (wireFieldId f.packet_type f.field_id) ++ f.payload
  msg ++ beBytes16 (crc16 msg)

/-- `ParseErrorKind` from src/frame/parser.rs. -/
inductive ParseErrorKind
  | ChecksumError
  | InvalidLength
deriving DecidableEq, Repr

/-- `ParseResult` from src/frame/parser.rs.  In `Failure`, the source also
returns `broken_data`, which is always the whole original input slice; it is
omitted here because it carries no extra information. -/
inductive ParseResult
  | Ok (rest : List Nat) (frame : Frame)
  | Incomplete
  | Failure (rest : List Nat) (error : ParseErrorKind)
deriving DecidableEq, Repr

/-- `FrameParser::frame_parser` composed with the result translation of
`FrameParser::parse` (src/frame/parser.rs).  Streaming semantics of the nom
combinators: running out of input anywhere yields `Incomplete`; `take_till`
reaching the end of input without seeing `SOF` also yields `Incomplete`.
The two `verify` failures carry the `InvalidLength` / `ChecksumError`
contexts, and the `rest` of a `Failure` is the input slice at the failing
parser (the length byte, respectively the CRC bytes), matching
`error.errors.last()` in `FrameParser::parse`. -/
def Frame.parse (data : List Nat) : ParseResult :=
  -- take_till (b == SOF): drop garbage until the first SOF
  let message := data.dropWhile (fun b => b ≠ SOF)
  match message with
  | [] => .Incomplete
  | _sof :: afterSof =>
    match afterSof with
    | [] => .Incomplete
    | srcByte :: r1 =>
      let source_address := srcByte ^^^ 0x80
      match r1 with
      | [] => .Incomplete
      | destination_address :: r2 =>
        match r2 with
        | [] => .Incomplete
        | header_length :: r3 =>
          -- verify 11 <= header_length < 70, context InvalidLength
          if ¬ (4 + 4 + 2 + 1 ≤ header_length ∧ header_length < 70) then
            .Failure (header_length :: r3) .InvalidLength
          else
            let payload_len := header_length - 4 - 4 - 2 - 1
            match r3 with
            | [] => .Incomplete
            | packet_type :: r4 =>
              match r4 with
              | b0 :: b1 :: b2 :: b3 :: r5 =>
                let wireWord := b0 * 16777216 + b1 * 65536 + b2 * 256 + b3
                let field_id :=
                  if packet_type = 3 ∨ packet_type = 6 then
                    swap_field_id wireWord
                  else wireWord
                if payload_len ≤ r5.length then
                  let payload := r5.take payload_len
                  let r6 := r5.drop payload_len
                  -- take (header_length - 2) from the start of the message
                  if header_length - 2 ≤ message.length then
                    let calculated_crc := crc16 (message.take (header_length - 2))
                    match r6 with
                    | c0 :: c1 :: r7 =>
                      if c0 * 256 + c1 = calculated_crc then
                        .Ok r7 (Frame.mk destination_address source_address
                          packet_type field_id payload)
                      else
                        .Failure (c0 :: c1 :: r7) .ChecksumError
                    | _ => .Incomplete
                  else .Incomplete
                else .Incomplete
              | _ => .Incomplete

/-! ## Error taxonomy (src/error.rs)

The `ParseIntError`/`ParseFloatError`/`ParseDateTimeError` variants wrap the
standard-library error payloads in the source; the payloads carry no
information used anywhere in the crate, so they are modelled as bare
constructors. -/

/-- `BsbError` from src/error.rs. -/
inductive BsbError
  | InvalidSetting
  | InvalidSchedule
  | InvalidDateTime
  | InvalidPayloadLength
  | InvalidFieldValue
  | NoFlag
  | ParseIntError
  | ParseFloatError
  | ParseDateTimeError
  | UnsupportedField
deriving DecidableEq, Repr

/-! ## Datatypes and values (src/datatypes.rs, src/value.rs) -/

/-- `Datatype` from src/datatypes.rs (`u8` parameters become `Nat`). -/
inductive Datatype
  | Setting (max : Nat)
  | Number
  | Float (factor : Nat)
  | DateTime
  | Schedule
deriving DecidableEq, Repr

/-- Broken-down calendar time, modelling `chrono::NaiveDateTime` at second
resolution (the sub-second part, always zero everywhere in this crate's
decoding and parsing paths, is not modelled). -/
structure NaiveDT where
  year : Int
  month : Nat
  day : Nat
  hour : Nat
  minute : Nat
  second : Nat
deriving DecidableEq, Repr

/-- Gregorian leap-year rule (as used by chrono). -/
def isLeapYear (y : Int) : Bool :=
  y % 4 == 0 && (y % 100 != 0 || y % 400 == 0)

/-- Days in a Gregorian month (0 for month numbers outside 1..12). -/
def daysInMonth (y : Int) (m : Nat) : Nat :=
  match m with
  | 1 => 31
  | 2 => if isLeapYear y then 29 else 28
  | 3 => 31
  | 4 => 30
  | 5 => 31
  | 6 => 30
  | 7 => 31
  | 8 => 31
  | 9 => 30
  | 10 => 31
  | 11 => 30
  | 12 => 31
  | _ => 0

/-- Days before the first of month `m` in a non-leap year. -/
def daysBeforeMonth (m : Nat) : Nat :=
  match m with
  | 1 => 0
  | 2 => 31
  | 3 => 59
  | 4 => 90
  | 5 => 120
  | 6 => 151
  | 7 => 181
  | 8 => 212
  | 9 => 243
  | 10 => 273
  | 11 => 304
  | 12 => 334
  | _ => 0

/-- 1-based ordinal of the proleptic-Gregorian day `(y, m, d)` counted from
0001-01-01 (which has ordinal 1), for positive years. -/
def dayOrdinal (y m d : Nat) : Nat :=
  365 * (y - 1) + ((y - 1) / 4 - (y - 1) / 100 + (y - 1) / 400) +
    (daysBeforeMonth m + if 3 ≤ m ∧ isLeapYear (y : Int) then 1 else 0) + d

/-- `chrono::Datelike::weekday().number_from_monday()`: 1 = Monday .. 7 =
Sunday.  Weekdays repeat over the 400-year Gregorian cycle (146097 days, a
multiple of 7), so the year is first shifted by a multiple of 400 into a
positive range; 0001-01-01 proleptic Gregorian is a Monday. -/
def weekdayFromMonday (y : Int) (m d : Nat) : Nat :=
  let yy : Nat := ((y % 400 + 400) % 400).toNat + 800
  (dayOrdinal yy m d - 1) % 7 + 1

/-- The calendar validity that the `chrono::NaiveDateTime` type itself
guarantees and that `NaiveDate::from_ymd_opt` / `NaiveTime::from_hms_opt`
check on decode. -/
def NaiveDT.validDate (t : NaiveDT) : Prop :=
  1 ≤ t.month ∧ t.month ≤ 12 ∧ 1 ≤ t.day ∧ t.day ≤ daysInMonth t.year t.month

/-- Validity of the time-of-day part (`NaiveTime::from_hms_opt`). -/
def NaiveDT.validTime (t : NaiveDT) : Prop :=
  t.hour < 24 ∧ t.minute < 60 ∧ t.second < 60

/-- A structurally valid `chrono::NaiveDateTime`. -/
def NaiveDT.valid (t : NaiveDT) : Prop := t.validDate ∧ t.validTime

instance : DecidablePred NaiveDT.validDate := fun t => by
  unfold NaiveDT.validDate; infer_instance

instance : DecidablePred NaiveDT.validTime := fun t => by
  unfold NaiveDT.validTime; infer_instance

instance : DecidablePred NaiveDT.valid := fun t => by
  unfold NaiveDT.valid; infer_instance

/-- `Value` from src/value.rs.  The `f32` payload of the `Float` variant is
idealised as an exact rational. -/
inductive Value
  | Setting (flag : Nat) (setting : Nat) (max : Nat)
  | Number (flag : Nat) (value : Nat)
  | Float (flag : Nat) (value : ℚ) (factor : Nat)
  | DateTime (flag : Nat) (datetime : NaiveDT)
  | Schedule (ranges : List (Nat × Nat × Nat × Nat))
deriving DecidableEq

deriving instance DecidableEq for Except

/-- `Value::datatype` from src/value.rs. -/
def Value.datatype : Value → Datatype
  | .Setting _ _ max => .Setting max
  | .Number _ _ => .Number
  | .Float _ _ factor => .Float factor
  | .DateTime _ _ => .DateTime
  | .Schedule _ => .Schedule

/-- The Rust `as u16` cast applied to a (nonnegative-or-not) scaled float in
`Value::encode`: truncation toward zero, saturating into `0..=65535`
(NaN, unrepresentable in the rational idealisation, is not modelled). -/
def f32AsU16 (q : ℚ) : Nat :=
  if q < 0 then 0 else if 65535 ≤ q then 65535 else ⌊q⌋.toNat

/-- `i16::from_be_bytes` applied to two wire bytes, as in `Value::decode`'s
Float arm: two's-complement interpretation of the 16-bit big-endian word. -/
def i16FromBe (b0 b1 : Nat) : Int :=
  if b0 * 256 + b1 < 32768 then (b0 * 256 + b1 : Int)
  else (b0 * 256 + b1 : Int) - 65536

/-- The byte list `[sh, sm, eh, em, ...]` built by the Schedule arm of
`Value::encode` from the range list. -/
def flattenRanges : List (Nat × Nat × Nat × Nat) → List Nat
  | [] => []
  | (sh, sm, eh, em) :: rest => sh :: sm :: eh :: em :: flattenRanges rest

/-- `Value::encode` from src/value.rs.  For `Float`, the scaled value
`value * factor` is computed exactly (idealising the two `f32` operations)
and cast with the truncating, saturating `as u16`.  For `DateTime`, the year
byte is `(year - 1900).try_into().unwrap_or_default()`, i.e. 0 whenever
`year - 1900` does not fit a `u8`; the schedule terminator `24 ^ 0x80` is
152. -/
def Value.encode : Value → List Nat
  | .Setting flag setting _ => [flag, setting]
  | .Number flag value => flag :: beBytes16 value
  | .Float flag value factor =>
    let scaled := f32AsU16 (value * (factor : ℚ))
    [flag, scaled / 256 % 256, scaled % 256]
  | .DateTime flag t =>
    [flag,
     if 0 ≤ t.year - 1900 ∧ t.year - 1900 ≤ 255 then (t.year - 1900).toNat else 0,
     t.month, t.day, weekdayFromMonday t.year t.month t.day,
     t.hour, t.minute, t.second, 0]
  | .Schedule items => flattenRanges items ++ [152, 0, 24, 0]

/-- `payload.chunks_exact(4)` of the Schedule decoding arm: the list of
complete 4-byte chunks together with the remainder (`len % 4` trailing
bytes). -/
def chunks4 : List Nat → List (Nat × Nat × Nat × Nat) × List Nat
  | a :: b :: c :: d :: rest =>
    let p := chunks4 rest
    ((a, b, c, d) :: p.1, p.2)
  | l => ([], l)

/-- The `for chunk in &mut range` loop of the Schedule decoding arm: stop
(without emitting) at the first chunk whose first byte has bit 7 set — the
test `sh & 0x80 != 0` is written `sh / 128 % 2 = 1` — fail on an emitted
range violating the hour/minute bounds, collect the rest in order. -/
def scheduleLoop : List (Nat × Nat × Nat × Nat) →
    Except BsbError (List (Nat × Nat × Nat × Nat))
  | [] => .ok []
  | (sh, sm, eh, em) :: rest =>
    if sh / 128 % 2 = 1 then .ok []
    else if sh > 24 ∨ eh > 24 ∨ sm > 59 ∨ em > 59 then .error .InvalidSchedule
    else
      match scheduleLoop rest with
      | .error e => .error e
      | .ok rs => .ok ((sh, sm, eh, em) :: rs)

/-- `Value::decode` from src/value.rs.  The Setting arm reads `payload[1]`
first (so a 1-byte payload fails `InvalidPayloadLength`, an empty one too);
Number/Float/DateTime check their minimum length up front, which the
cons patterns express; the Float arm divides the `i16` by the factor
(idealising the `f32` division as exact); the DateTime arm validates the
date and then the time; the Schedule arm runs the chunk loop and then
rejects a non-empty `chunks_exact` remainder. -/
def Value.decode (payload : List Nat) (datatype : Datatype) :
    Except BsbError Value :=
  match datatype with
  | .Setting max =>
    match payload with
    | flag :: setting :: _ =>
      if setting > max then .error .InvalidSetting
      else .ok (.Setting flag setting max)
    | _ => .error .InvalidPayloadLength
  | .Number =>
    match payload with
    | flag :: b0 :: b1 :: _ => .ok (.Number flag (b0 * 256 + b1))
    | _ => .error .InvalidPayloadLength
  | .Float factor =>
    match payload with
    | flag :: b0 :: b1 :: _ =>
      .ok (.Float flag ((i16FromBe b0 b1 : ℚ) / (factor : ℚ)) factor)
    | _ => .error .InvalidPayloadLength
  | .DateTime =>
    match payload with
    | flag :: yb :: mb :: db :: _dow :: hb :: mib :: sb :: _tz :: _ =>
      let t : NaiveDT := ⟨1900 + (yb : Int), mb, db, hb, mib, sb⟩
      if t.validDate then
        if t.validTime then .ok (.DateTime flag t)
        else .error .InvalidDateTime
      else .error .InvalidDateTime
    | _ => .error .InvalidPayloadLength
  | .Schedule =>
    let p := chunks4 payload
    match scheduleLoop p.1 with
    | .error e => .error e
    | .ok ranges =>
      if p.2 ≠ [] then .error .InvalidSchedule
      else .ok (.Schedule ranges)

/-- The byte-order rule exactly as the specification words it for Set/Get
frames: if the wire bytes are `b0 b1 b2 b3`, the in-memory `field_id`
(big-endian interpretation) is `[b0, b2, b1, b3]` — the middle two bytes
swapped. -/
def specMiddleSwapWord (b0 b1 b2 b3 : Nat) : Nat :=
  b0 * 16777216 + b2 * 65536 + b1 * 256 + b3

/-- The per-range validity invariant of a schedule range `(sh, sm, eh, em)`:
hours at most 24, minutes at most 59 (src/value.rs, Schedule arms). -/
def validRange (r : Nat × Nat × Nat × Nat) : Prop :=
  r.1 ≤ 24 ∧ r.2.2.1 ≤ 24 ∧ r.2.1 ≤ 59 ∧ r.2.2.2 ≤ 59

instance : DecidablePred validRange := fun r => by
  unfold validRange; infer_instance

/-- "Valid under the datatype" as claim C4 words it: the value's tag and
parameters match the datatype, a Setting stays within its max, Schedule
ranges satisfy the range invariant; plus the bounds the Rust types
themselves guarantee (`u8`/`u16` fields, calendar-valid `NaiveDateTime`). -/
def Value.validFor : Value → Datatype → Prop
  | .Setting flag s max, .Setting m =>
    flag < 256 ∧ s < 256 ∧ max < 256 ∧ max = m ∧ s ≤ max
  | .Number flag v, .Number => flag < 256 ∧ v < 65536
  | .Float flag _ fac, .Float fd => flag < 256 ∧ fac < 256 ∧ fac = fd
  | .DateTime flag t, .DateTime => flag < 256 ∧ t.valid
  | .Schedule rs, .Schedule => ∀ r ∈ rs, validRange r
  | _, _ => False

instance : ∀ (tv : Value) (d : Datatype), Decidable (tv.validFor d) := by
  intro tv d
  cases tv <;> cases d <;> simp only [Value.validFor] <;> infer_instance

/-- The wire-representability conditions that §3 of the specification states
as data-model invariants but claim C4 omits: a DateTime year must fit the
`year - 1900` wire byte, and a Float must scale to an integer representable
in the nonnegative half of the wire `i16`. -/
def Value.wireRepresentable : Value → Prop
  | .DateTime _ t => 1900 ≤ t.year ∧ t.year ≤ 2155
  | .Float _ v fac => 0 < fac ∧ ∃ n : Nat, n ≤ 32767 ∧ v * (fac : ℚ) = (n : ℚ)
  | _ => True

/-- Round to nearest with ties to even — the Float encode rounding policy as
the specification words it. -/
def roundHalfEven (q : ℚ) : ℤ :=
  if q - ⌊q⌋ < 1 / 2 then ⌊q⌋
  else if 1 / 2 < q - ⌊q⌋ then ⌊q⌋ + 1
  else if ⌊q⌋ % 2 = 0 then ⌊q⌋ else ⌊q⌋ + 1

/-! ## Field registry (src/field.rs; registry data spec-modelled) -/

/-- `Field` from src/field.rs (named `BsbField` here: `Field` is taken by Mathlib) (strings become `List Char`). -/
structure BsbField where
  id : Nat
  name : List Char
  prognr : Nat
  datatype : Datatype
  path : List Char
deriving DecidableEq, Repr

/-- Modelled from the spec: the `FIELDS` registry map is generated at build
time from the external CSV `bsb-fields.csv` (§4.A, §6), which is not under
src/; only its shape (`id,name,prognr,data_type,path`, unique ids and
names) is specified.  This model registry contains the fields the
repository's tests pin (`water_pressure` = 0x053D19F0 `Float(10)` with path
`system/water_pressure`, `warmwater_temperature` = 0x313D052F prognr 8701
`Float(64)` path `temperature/warmwater`, and field 222103850 with a
`Setting` datatype of max < 3, from `test_field_value_from_frame_invalid`),
plus one representative field per remaining datatype — names, prognr and
ids of the non-test fields are invented placeholders. -/
def FIELDS : List BsbField :=
  [⟨0x053D19F0, "water_pressure".data, 0, .Float 10,
      "system/water_pressure".data⟩,
    ⟨0x313D052F, "warmwater_temperature".data, 8701, .Float 64,
      "temperature/warmwater".data⟩,
    ⟨222103850, "operating_mode".data, 0, .Setting 2,
      "system/operating_mode".data⟩,
    ⟨0x05000213, "error_code".data, 0, .Number, "system/error_code".data⟩,
    ⟨0x0500006C, "clock".data, 0, .DateTime, "system/clock".data⟩,
    ⟨0x053D0A8C, "heating_schedule".data, 0, .Schedule,
      "system/heating_schedule".data⟩]

/-- `Field::by_id` as used by src/field_value.rs: option-valued lookup of
the registry map by field id. -/
def BsbField.by_id (id : Nat) : Option BsbField := FIELDS.find? (fun f => f.id = id)

/-- `Field::by_name` from src/field.rs: first field whose name matches. -/
def BsbField.by_name (name : List Char) : Option BsbField :=
  FIELDS.find? (fun f => f.name = name)

/-! ## Text format of values (Display / from_str in src/value.rs) -/

/-- The decimal digit characters. -/
def digitChar (n : Nat) : Char :=
  match n with
  | 0 => '0'
  | 1 => '1'
  | 2 => '2'
  | 3 => '3'
  | 4 => '4'
  | 5 => '5'
  | 6 => '6'
  | 7 => '7'
  | 8 => '8'
  | _ => '9'

/-- ASCII decimal digit test (`u8` parsing accepts exactly these). -/
def isDigitChar (c : Char) : Bool := 48 ≤ c.toNat ∧ c.toNat ≤ 57

/-- ASCII whitespace as stripped by `str::trim` on the inputs this crate
sees (the full Unicode White_Space set is not modelled). -/
def isWsChar (c : Char) : Bool := c = ' ' ∨ c = '\t' ∨ c = '\n' ∨ c = '\r'

/-- Decimal rendering of a natural number (fuel-structured so that it
evaluates by kernel reduction; the fuel `n + 1` always suffices). -/
def natCharsGo (fuel n : Nat) : List Char :=
  match fuel with
  | 0 => []
  | fuel + 1 =>
    if n < 10 then [digitChar n]
    else natCharsGo fuel (n / 10) ++ [digitChar (n % 10)]

/-- Decimal rendering of a natural number, as Rust `Display` for `u8`/`u16`
prints it. -/
def natChars (n : Nat) : List Char := natCharsGo (n + 1) n

/-- Numeric value of a digit string (most significant first). -/
def charsVal (l : List Char) : Nat :=
  l.foldl (fun acc c => acc * 10 + (c.toNat - 48)) 0

/-- Strip one leading `+` (Rust's unsigned `from_str` accepts it). -/
def stripPlus (s : List Char) : List Char :=
  match s with
  | '+' :: rest => rest
  | _ => s

/-- All-digit parse of a (plus-stripped) numeric string: at least one
character, every character a decimal digit. -/
def parseNatAll (l : List Char) : Option Nat :=
  if l ≠ [] ∧ ∀ c ∈ l, isDigitChar c then some (charsVal l) else none

/-- Rust `u8::from_str`: optional `+`, decimal digits, value at most 255. -/
def parse_u8 (s : List Char) : Option Nat :=
  match parseNatAll (stripPlus s) with
  | some n => if n ≤ 255 then some n else none
  | none => none

/-- Rust `u16::from_str`: optional `+`, decimal digits, value at most
65535. -/
def parse_u16 (s : List Char) : Option Nat :=
  match parseNatAll (stripPlus s) with
  | some n => if n ≤ 65535 then some n else none
  | none => none

/-- Splits a character list at the FIRST occurrence of `sep`
(`str::split_once`): `none` when `sep` does not occur. -/
def splitOnce (sep : Char) : List Char → Option (List Char × List Char)
  | [] => none
  | c :: rest =>
    if c = sep then some ([], rest)
    else
      match splitOnce sep rest with
      | some (a, b) => some (c :: a, b)
      | none => none

/-- `str::split` on a separator character: always at least one part, empty
parts preserved. -/
def splitAll (sep : Char) : List Char → List (List Char)
  | [] => [[]]
  | c :: rest =>
    let ps := splitAll sep rest
    if c = sep then [] :: ps
    else
      match ps with
      | p :: tail => (c :: p) :: tail
      | [] => [[c]]

/-- `str::trim` (ASCII whitespace model): drop whitespace from both ends. -/
def trimChars (s : List Char) : List Char :=
  ((s.dropWhile isWsChar).reverse.dropWhile isWsChar).reverse

/-- The longest digit run at the front of the input, and the rest. -/
def spanDigits (s : List Char) : List Char × List Char :=
  (s.takeWhile isDigitChar, s.dropWhile isDigitChar)

/-- Fractional decimal expansion of `num / den` (`num < den`), at most
`fuel` digits.  Supports the idealised `f32` Display model below. -/
def fracChars (num den fuel : Nat) : List Char :=
  match fuel with
  | 0 => []
  | fuel + 1 =>
    if num = 0 then []
    else digitChar (num * 10 / den) :: fracChars (num * 10 % den) den fuel

/-- Idealised model of Rust's shortest-decimal `f32` `Display` on the exact
rational carried by the Float value: sign, integer part, and up to 64 exact
fraction digits.  It is exact whenever the denominator divides a power of
ten (every value the registry's Float fields produce from the wire);
theorems about the text round trip exclude Float values because the real
shortest-decimal/nearest-`f32` semantics are floating-point. -/
def ratChars (q : ℚ) : List Char :=
  let sign : List Char := if q < 0 then ['-'] else []
  let n := q.num.natAbs
  let ip := n / q.den
  let fr := n % q.den
  sign ++ natChars ip ++ (if fr = 0 then [] else '.' :: fracChars fr q.den 64)

/-- Idealised model of Rust `f32::from_str` on the decimal grammar
`[+|-] digits [. digits]` (exact rational result; exponent forms, `inf` and
`NaN` are not modelled; unused by any proved statement, see `ratChars`). -/
def parse_f32 (s : List Char) : Option ℚ :=
  let signed : ℚ × List Char :=
    match s with
    | '-' :: rest => (-1, rest)
    | '+' :: rest => (1, rest)
    | _ => (1, s)
  match splitOnce '.' signed.2 with
  | none => (parseNatAll signed.2).map (fun n => signed.1 * n)
  | some (ip, fp) =>
    match parseNatAll ip, parseNatAll fp with
    | some i, some f =>
      some (signed.1 * ((i : ℚ) + (f : ℚ) / ((10 : ℚ) ^ fp.length)))
    | _, _ => none

/-- Two-digit zero-padded rendering (chrono `%m %d %H %M %S`). -/
def pad2 (n : Nat) : List Char :=
  if n < 10 then '0' :: natChars n else natChars n

/-- Four-digit zero-padded rendering (chrono `%Y` for years 0..9999). -/
def pad4 (n : Nat) : List Char :=
  if n < 10 then '0' :: '0' :: '0' :: natChars n
  else if n < 100 then '0' :: '0' :: natChars n
  else if n < 1000 then '0' :: natChars n
  else natChars n

/-- chrono `%Y` on a possibly negative year (sign then zero-padded
digits). -/
def yearChars (y : Int) : List Char :=
  if y < 0 then '-' :: pad4 (-y).toNat else pad4 y.toNat

/-- The `%Y-%m-%dT%H:%M:%S` rendering of a date-time (chrono `Display`
via `format` in `Display for Value`). -/
def dtChars (t : NaiveDT) : List Char :=
  yearChars t.year ++ '-' :: pad2 t.month ++ '-' :: pad2 t.day ++
    'T' :: pad2 t.hour ++ ':' :: pad2 t.minute ++ ':' :: pad2 t.second

/-- Idealised model of `NaiveDateTime::parse_from_str` with format
`%Y-%m-%dT%H:%M:%S`: greedy digit runs around the literal separators, the
whole input consumed, calendar validity checked (chrono's numeric parsing
of signed or very long years is not modelled; canonical four-digit
positive years parse identically). -/
def parseDateTime (s : List Char) : Option NaiveDT :=
  let p1 := spanDigits s
  match p1.2 with
  | '-' :: r2 =>
    let p2 := spanDigits r2
    match p2.2 with
    | '-' :: r4 =>
      let p3 := spanDigits r4
      match p3.2 with
      | 'T' :: r6 =>
        let p4 := spanDigits r6
        match p4.2 with
        | ':' :: r8 =>
          let p5 := spanDigits r8
          match p5.2 with
          | ':' :: r10 =>
            let p6 := spanDigits r10
            if p1.1 ≠ [] ∧ p2.1 ≠ [] ∧ p3.1 ≠ [] ∧ p4.1 ≠ [] ∧
                p5.1 ≠ [] ∧ p6.1 ≠ [] ∧ p6.2 = [] then
              let t : NaiveDT := ⟨charsVal p1.1, charsVal p2.1, charsVal p3.1,
                charsVal p4.1, charsVal p5.1, charsVal p6.1⟩
              if t.validDate ∧ t.validTime then some t else none
            else none
          | _ => none
        | _ => none
      | _ => none
    | _ => none
  | _ => none

/-- One schedule range rendered `sh:sm-eh:em` (`Display for Value`). -/
def rangeChars (r : Nat × Nat × Nat × Nat) : List Char :=
  natChars r.1 ++ ':' :: (natChars r.2.1 ++ '-' ::
    (natChars r.2.2.1 ++ ':' :: natChars r.2.2.2))

/-- Schedule ranges joined with `,` (`Display for Value`). -/
def scheduleChars : List (Nat × Nat × Nat × Nat) → List Char
  | [] => []
  | [r] => rangeChars r
  | r :: rest => rangeChars r ++ ',' :: scheduleChars rest

/-- `Display for Value` (src/value.rs): the text form of each value. -/
def valueChars : Value → List Char
  | .Setting _ s _ => natChars s
  | .Number _ n => natChars n
  | .Float _ q _ => ratChars q
  | .DateTime _ t => dtChars t
  | .Schedule rs => scheduleChars rs

/-- The schedule-range text parser inside `Value::from_str`: split each
range on `:`, `-`, `:` in that order, parse four `u8`s, enforce the range
bounds. -/
def parseRanges : List (List Char) →
    Except BsbError (List (Nat × Nat × Nat × Nat))
  | [] => .ok []
  | r :: rest =>
    match splitOnce ':' r with
    | none => .error .InvalidSchedule
    | some (shs, r1) =>
      match splitOnce '-' r1 with
      | none => .error .InvalidSchedule
      | some (sms, r2) =>
        match splitOnce ':' r2 with
        | none => .error .InvalidSchedule
        | some (ehs, ems) =>
          match parse_u8 shs, parse_u8 sms, parse_u8 ehs, parse_u8 ems with
          | some sh, some sm, some eh, some em =>
            if sh > 24 ∨ eh > 24 ∨ sm > 59 ∨ em > 59 then
              .error .InvalidSchedule
            else
              match parseRanges rest with
              | .error e => .error e
              | .ok rs => .ok ((sh, sm, eh, em) :: rs)
          | _, _, _, _ => .error .ParseIntError

/-- `Value::from_str` (src/value.rs): parse the text form under the given
datatype; numeric parse failures surface as the corresponding
`Parse*Error` variants, bound violations as `InvalidSetting` /
`InvalidSchedule`; the flag of a parsed value is 0. -/
def Value.from_str (s : List Char) (datatype : Datatype) :
    Except BsbError Value :=
  match datatype with
  | .Setting max =>
    match parse_u8 s with
    | none => .error .ParseIntError
    | some setting =>
      if setting > max then .error .InvalidSetting
      else .ok (.Setting 0 setting max)
  | .Number =>
    match parse_u16 s with
    | none => .error .ParseIntError
    | some value => .ok (.Number 0 value)
  | .Float factor =>
    match parse_f32 s with
    | none => .error .ParseFloatError
    | some value => .ok (.Float 0 value factor)
  | .DateTime =>
    match parseDateTime s with
    | none => .error .ParseDateTimeError
    | some datetime => .ok (.DateTime 0 datetime)
  | .Schedule =>
    match parseRanges (splitAll ',' s) with
    | .error e => .error e
    | .ok ranges => .ok (.Schedule ranges)

/-! ## Field-values (src/field_value.rs) -/

/-- `FieldValue` from src/field_value.rs. -/
structure FieldValue where
  field_id : Nat
  value : Value
deriving DecidableEq

/-- `FieldValue::new` (src/field_value.rs): look the field up by id —
`UnsupportedField` when absent — and pair the registered field's id with
the given value.  (No datatype check is performed.) -/
def FieldValue.new (field_id : Nat) (value : Value) :
    Except BsbError FieldValue :=
  match BsbField.by_id field_id with
  | none => .error .UnsupportedField
  | some field => .ok ⟨field.id, value⟩

/-- `FieldValue::field` (src/field_value.rs): the accessor `.expect`s the
lookup, panicking when the stored id is not in the registry; the panic is
modelled as `none`. -/
def FieldValue.field (fv : FieldValue) : Option BsbField :=
  BsbField.by_id fv.field_id

/-- `FieldValue::from_str` (src/field_value.rs): split on the first `:`
(`InvalidFieldValue` when absent), resolve the field by trimmed name
(`UnsupportedField` when unknown), parse the trimmed value text under the
registered datatype, and store the CALLER-SUPPLIED `field_id` with the
parsed value. -/
def FieldValue.from_str (s : List Char) (field_id : Nat) :
    Except BsbError FieldValue :=
  match splitOnce ':' s with
  | none => .error .InvalidFieldValue
  | some (name_str, value_str) =>
    match BsbField.by_name (trimChars name_str) with
    | none => .error .UnsupportedField
    | some field =>
      match Value.from_str (trimChars value_str) field.datatype with
      | .error e => .error e
      | .ok value => .ok ⟨field_id, value⟩

/-- `Display for FieldValue` (src/field_value.rs): renders
`"<field.name>: <value_text>"` through the `field()` accessor, which
panics (modelled `none`) when the id is not registered. -/
def FieldValue.render (fv : FieldValue) : Option (List Char) :=
  (BsbField.by_id fv.field_id).map
    (fun fld => fld.name ++ ':' :: ' ' :: valueChars fv.value)

/-- Flags are zero exactly as `Value::from_str` produces them (Schedule has
no flag). -/
def Value.flagZero : Value → Prop
  | .Setting flag _ _ => flag = 0
  | .Number flag _ => flag = 0
  | .Float flag _ _ => flag = 0
  | .DateTime flag _ => flag = 0
  | .Schedule _ => True

instance : DecidablePred Value.flagZero := fun v => by
  cases v <;> simp only [Value.flagZero] <;> infer_instance

/-! ## Sanity checks and theorems -/

example : Frame.serialize (Frame.mk 1 2 3 4 [5]) =
    [220, 130, 1, 12, 3, 0, 0, 0, 4, 5, 219, 42] := by decide

example : Frame.serialize (Frame.mk 66 0 7 87890416 [0, 0, 15]) =
    [220, 128, 66, 14, 7, 5, 61, 25, 240, 0, 0, 15, 29, 116] := by decide

example : Frame.serialize (Frame.mk 0 66 6 87890416 []) =
    [220, 194, 0, 11, 6, 61, 5, 25, 240, 36, 62] := by decide

example : Frame.serialize (Frame.mk 0 66 3 87884342 [1, 0]) =
    [220, 194, 0, 13, 3, 61, 5, 2, 54, 1, 0, 70, 13] := by decide

example : Frame.parse [220, 194, 0, 11, 6, 61, 5, 25, 240, 36, 62] =
    .Ok [] (Frame.mk 0 66 6 87890416 []) := by decide

example : Frame.parse [0, 1, 2, 3, 220, 194, 0, 11, 6, 61, 5, 25, 240, 36, 62] =
    .Ok [] (Frame.mk 0 66 6 87890416 []) := by decide

example : Frame.parse [220, 1, 2, 11, 4, 5, 6, 7, 8, 9] = .Incomplete := by decide

example : Frame.parse [220, 0, 0, 1, 0, 0, 0, 0, 0, 0, 0, 0, 0, 0] =
    .Failure [1, 0, 0, 0, 0, 0, 0, 0, 0, 0, 0] .InvalidLength := by decide

example : Frame.parse [220, 0, 0, 70, 0, 0, 0, 0, 0, 0, 0, 0, 0, 0] =
    .Failure [70, 0, 0, 0, 0, 0, 0, 0, 0, 0, 0] .InvalidLength := by decide

example : Frame.parse [0xBB, 0, 0, 11, 0, 0, 0, 0, 0, 0, 0] = .Incomplete := by
  decide

example : Frame.parse [220, 0, 0, 14, 0, 0, 0, 0, 0, 0, 0, 0, 0, 0] =
    .Failure [0, 0] .ChecksumError := by decide

-- Weekday sanity: 2024-11-11 was a Monday (the repository's DateTime test
-- vector carries day-of-week byte 1) and 1970-01-01 was a Thursday.
example : weekdayFromMonday 2024 11 11 = 1 := by decide
example : weekdayFromMonday 1970 1 1 = 4 := by decide

/-! ### Sanity checks of the value model against the repository's test
vectors (src/value.rs tests). -/

example : Value.decode [0, 1] (.Setting 2) = .ok (.Setting 0 1 2) := by decide
example : Value.decode [0, 0, 15] .Number = .ok (.Number 0 15) := by decide
example : Value.decode [0, 0, 15] (.Float 10) = .ok (.Float 0 (3 / 2) 10) := by
  simp [Value.decode, i16FromBe]; norm_num
example : Value.decode [0, 0, 35] (.Float 50) = .ok (.Float 0 (7 / 10) 50) := by
  simp [Value.decode, i16FromBe]; norm_num
example : Value.decode [0, 5, 192] (.Float 64) = .ok (.Float 0 23 64) := by
  simp [Value.decode, i16FromBe]; norm_num
example : Value.decode [0, 124, 11, 11, 1, 9, 36, 57, 0] .DateTime =
    .ok (.DateTime 0 ⟨2024, 11, 11, 9, 36, 57⟩) := by decide
example : Value.decode [6, 50, 7, 10, 18, 30, 18, 50, 152, 0, 24, 0] .Schedule =
    .ok (.Schedule [(6, 50, 7, 10), (18, 30, 18, 50)]) := by decide

example : Value.encode (.Setting 0 1 2) = [0, 1] := by decide
example : Value.encode (.Number 0 15) = [0, 0, 15] := by decide
example : Value.encode (.Float 0 (3 / 2) 10) = [0, 0, 15] := by
  norm_num [Value.encode, f32AsU16]; decide
example : Value.encode (.Float 0 (7 / 10) 50) = [0, 0, 35] := by
  norm_num [Value.encode, f32AsU16]; decide
example : Value.encode (.Float 0 23 64) = [0, 5, 192] := by
  norm_num [Value.encode, f32AsU16]; decide
example : Value.encode (.DateTime 0 ⟨2024, 11, 11, 9, 36, 57⟩) =
    [0, 124, 11, 11, 1, 9, 36, 57, 0] := by decide
example : Value.encode (.Schedule [(6, 50, 7, 10), (18, 30, 18, 50)]) =
    [6, 50, 7, 10, 18, 30, 18, 50, 152, 0, 24, 0] := by decide

example : Value.decode [0, 3] (.Setting 2) = .error .InvalidSetting := by decide
example : Value.decode [0, 0] .Number = .error .InvalidPayloadLength := by decide
example : Value.decode [0, 0] (.Float 10) = .error .InvalidPayloadLength := by
  decide
example : Value.decode [0, 124, 11, 11, 1, 9, 36, 57] .DateTime =
    .error .InvalidPayloadLength := by decide
example : Value.decode [0, 124, 11, 11, 1, 25, 36, 57, 0] .DateTime =
    .error .InvalidDateTime := by decide
example : Value.decode [6, 50, 7, 10, 18, 30, 18] .Schedule =
    .error .InvalidSchedule := by decide
example : Value.decode [6, 50, 7, 10, 18, 30, 18, 60, 152, 0, 24, 0] .Schedule =
    .error .InvalidSchedule := by decide

/-! ## Helper lemmas about the frame codec -/

theorem crcStep_lt (c : Nat) : crcStep c < 65536 := by
  unfold crcStep
  split <;> exact Nat.mod_lt _ (by omega)

theorem crcFeed_lt (c b : Nat) : crcFeed c b < 65536 := crcStep_lt _

theorem crc16_lt (bs : List Nat) : crc16 bs < 65536 := by
  have haux : ∀ (l : List Nat) (acc : Nat), acc < 65536 →
      l.foldl crcFeed acc < 65536 := by
    intro l
    induction l with
    | nil => intro acc h; simpa using h
    | cons x xs ih => intro acc _; exact ih (crcFeed acc x) (crcFeed_lt acc x)
  exact haux bs 0 (by omega)

theorem swap_field_id_lt (n : Nat) : swap_field_id n < 2 ^ 32 := by
  unfold swap_field_id; omega

/-- On a 32-bit word presented as its four big-endian bytes, `swap_field_id`
exchanges the two most significant bytes. -/
theorem swap_field_id_bytes (a b c d : Nat) (ha : a < 256) (hb : b < 256)
    (hc : c < 256) (hd : d < 256) :
    swap_field_id (a * 16777216 + b * 65536 + c * 256 + d) =
      b * 16777216 + a * 65536 + c * 256 + d := by
  unfold swap_field_id; omega

/-- The Set/Get byte-order transform is an involution on 32-bit words. -/
theorem swap_field_id_swap (n : Nat) (h : n < 2 ^ 32) :
    swap_field_id (swap_field_id n) = n := by
  obtain ⟨a, b, c, d, ha, hb, hc, hd, hn⟩ :
      ∃ a b c d, a < 256 ∧ b < 256 ∧ c < 256 ∧ d < 256 ∧
        n = a * 16777216 + b * 65536 + c * 256 + d :=
    ⟨n / 16777216, n / 65536 % 256, n / 256 % 256, n % 256, by omega, by omega,
      by omega, by omega, by omega⟩
  subst hn
  rw [swap_field_id_bytes a b c d ha hb hc hd,
    swap_field_id_bytes b a c d hb ha hc hd]

theorem wireFieldId_lt (pt n : Nat) (h : n < 2 ^ 32) :
    wireFieldId pt n < 2 ^ 32 := by
  unfold wireFieldId
  split
  · exact swap_field_id_lt n
  · exact h

theorem dropWhile_sof_cons (l : List Nat) :
    List.dropWhile (fun b => b ≠ SOF) (SOF :: l) = SOF :: l := by
  simp [List.dropWhile_cons]

theorem dropWhile_garbage (g l : List Nat) (h : ∀ b ∈ g, b ≠ SOF) :
    List.dropWhile (fun b => b ≠ SOF) (g ++ SOF :: l) = SOF :: l := by
  induction g with
  | nil => simpa using dropWhile_sof_cons l
  | cons a t ih =>
    have ha : a ≠ SOF := h a (by simp)
    simp only [List.cons_append, List.dropWhile_cons]
    rw [if_pos (by simpa using ha)]
    exact ih fun b hb => h b (by simp [hb])

theorem beBytes32_recombine (n : Nat) (h : n < 2 ^ 32) :
    n / 16777216 % 256 * 16777216 + n / 65536 % 256 * 65536 +
      n / 256 % 256 * 256 + n % 256 = n := by
  omega

theorem xor80_xor80 (a : Nat) : a ^^^ 0x80 ^^^ 0x80 = a := by
  rw [Nat.xor_assoc, Nat.xor_self, Nat.xor_zero]

/-- C2 (round trip, general form): parsing a serialized well-formed frame
with payload at most 58 bytes returns the frame and an empty rest. -/
theorem frame_parse_serialize (f : Frame) (hwf : f.wf)
    (hlen : f.payload.length ≤ 58) :
    Frame.parse (Frame.serialize f) = .Ok [] f := by
  obtain ⟨dst, src, pt, id, payload⟩ := f
  obtain ⟨hdst, hsrc, hpt, hid, hbytes⟩ := hwf
  simp only [Frame.wf] at *
  set w := wireFieldId pt id with hwdef
  have hw : w < 2 ^ 32 := wireFieldId_lt pt id hid
  set msg : List Nat := [SOF, src ^^^ 0x80, dst,
      payload.length + 4 + 4 + 2 + 1, pt] ++ beBytes32 w ++ payload with hmsg
  set C := crc16 msg with hCdef
  have hClt : C < 65536 := crc16_lt msg
  have hser : Frame.serialize ⟨dst, src, pt, id, payload⟩ =
      SOF :: (src ^^^ 0x80) :: dst :: (payload.length + 4 + 4 + 2 + 1) :: pt ::
        (w / 16777216 % 256) :: (w / 65536 % 256) :: (w / 256 % 256) ::
        (w % 256) :: (payload ++ [C / 256 % 256, C % 256]) := by
    simp [Frame.serialize, beBytes16, beBytes32, hmsg, hCdef, hwdef]
  rw [hser]
  simp only [Frame.parse, dropWhile_sof_cons]
  rw [if_neg (not_not_intro ⟨by omega, by omega⟩)]
  rw [show payload.length + 4 + 4 + 2 + 1 - 4 - 4 - 2 - 1 = payload.length
    from by omega]
  have hmsglen : msg.length = payload.length + 9 := by
    simp [hmsg, beBytes32]
  have hshape : SOF :: (src ^^^ 128) :: dst ::
      (payload.length + 4 + 4 + 2 + 1) :: pt ::
      (w / 16777216 % 256) :: (w / 65536 % 256) :: (w / 256 % 256) ::
      (w % 256) :: (payload ++ [C / 256 % 256, C % 256]) =
      msg ++ [C / 256 % 256, C % 256] := by
    simp [hmsg, beBytes32]
  simp only [List.length_append, List.length_cons, List.length_nil]
  rw [if_pos (by omega), if_pos (by omega)]
  simp only [List.take_left, List.drop_left]
  rw [hshape, show payload.length + 4 + 4 + 2 + 1 - 2 = msg.length
    from by rw [hmsglen]; omega]
  rw [List.take_left]
  rw [← hCdef]
  rw [if_pos (by omega)]
  rw [beBytes32_recombine w hw]
  rw [xor80_xor80]
  by_cases hpt36 : pt = 3 ∨ pt = 6
  · rw [if_pos hpt36, hwdef]
    unfold wireFieldId
    rw [if_pos hpt36, swap_field_id_swap id hid]
  · rw [if_neg hpt36, hwdef]
    unfold wireFieldId
    rw [if_neg hpt36]

/-- C10 (general form): an input slice containing no SOF byte parses to
`Incomplete`, whatever its length and contents. -/
theorem frame_parse_no_sof (data : List Nat) (h : ∀ b ∈ data, b ≠ SOF) :
    Frame.parse data = .Incomplete := by
  have hd : List.dropWhile (fun b => b ≠ SOF) data = [] := by
    rw [List.dropWhile_eq_nil_iff]
    intro x hx
    simpa using h x hx
  simp only [Frame.parse, hd]

/-- C6 (general form): with the first SOF followed by at least three bytes,
the parse fails with `InvalidLength` exactly when the length byte is outside
`11..=69`. -/
theorem frame_parse_invalid_length_iff (garbage : List Nat) (s d L : Nat)
    (rest : List Nat) (hg : ∀ b ∈ garbage, b ≠ SOF) :
    (Frame.parse (garbage ++ SOF :: s :: d :: L :: rest) =
      .Failure (L :: rest) .InvalidLength) ↔ (L < 11 ∨ 70 ≤ L) := by
  simp only [Frame.parse, dropWhile_garbage garbage (s :: d :: L :: rest) hg]
  by_cases hL : 4 + 4 + 2 + 1 ≤ L ∧ L < 70
  · rw [if_neg (not_not_intro hL)]
    constructor
    · intro heq
      exfalso
      repeat' split at heq
      all_goals simp at heq
    · intro h
      omega
  · rw [if_pos hL]
    constructor
    · intro _
      omega
    · intro _
      rfl

/-- The serialized bytes at offsets 5..8 are the wire image of `field_id`. -/
theorem serialize_field_id_bytes (f : Frame) :
    (f.serialize.drop 5).take 4 =
      beBytes32 (wireFieldId f.packet_type f.field_id) := by
  obtain ⟨dst, src, pt, id, payload⟩ := f
  have hshape : Frame.serialize ⟨dst, src, pt, id, payload⟩ =
      SOF :: (src ^^^ 0x80) :: dst :: (payload.length + 4 + 4 + 2 + 1) :: pt ::
        (wireFieldId pt id / 16777216 % 256) :: (wireFieldId pt id / 65536 % 256) ::
        (wireFieldId pt id / 256 % 256) :: (wireFieldId pt id % 256) ::
        (payload ++ beBytes16 (crc16 ([SOF, src ^^^ 0x80, dst,
          payload.length + 4 + 4 + 2 + 1, pt] ++
          beBytes32 (wireFieldId pt id) ++ payload))) := by
    simp [Frame.serialize, beBytes32]
  rw [hshape]
  rfl

/-- The four big-endian bytes of the Set/Get-transformed word are the plain
big-endian bytes of the word with the two most significant swapped. -/
theorem beBytes32_swap_field_id (n : Nat) (h : n < 2 ^ 32) :
    beBytes32 (swap_field_id n) =
      [n / 65536 % 256, n / 16777216 % 256, n / 256 % 256, n % 256] := by
  obtain ⟨a, b, c, d, ha, hb, hc, hd, hn⟩ :
      ∃ a b c d, a < 256 ∧ b < 256 ∧ c < 256 ∧ d < 256 ∧
        n = a * 16777216 + b * 65536 + c * 256 + d :=
    ⟨n / 16777216, n / 65536 % 256, n / 256 % 256, n % 256, by omega, by omega,
      by omega, by omega, by omega⟩
  subst hn
  rw [swap_field_id_bytes a b c d ha hb hc hd]
  have hbytes : beBytes32 (b * 16777216 + a * 65536 + c * 256 + d) =
      [b, a, c, d] := by
    simp only [beBytes32, List.cons.injEq, and_true]
    refine ⟨by omega, by omega, by omega, by omega⟩
  rw [hbytes]
  simp only [List.cons.injEq, and_true]
  refine ⟨by omega, by omega, by omega, by omega⟩

/-- C1 counterexample: for the Get frame with `field_id = 0x053D19F0`
(the repository's own test vector), the wire bytes at offsets 5..8 are
`3D 05 19 F0`, and reading them with the specification's middle-two-byte
swap rule gives `0x3D1905F0`, not the frame's `field_id`: the on-wire word
does not have its middle two bytes swapped. -/
theorem field_id_middle_swap_counterexample :
    ((Frame.mk 0 66 6 87890416 []).serialize.drop 5).take 4 =
      [61, 5, 25, 240] ∧ specMiddleSwapWord 61 5 25 240 ≠ 87890416 :=
  ⟨by decide, by decide⟩

/-- C1 amended: for Set (3) and Get (6) frames the wire image of `field_id`
swaps the two MOST SIGNIFICANT bytes (wire `b0 b1 b2 b3` stands for the
in-memory big-endian word `[b1, b0, b2, b3]`); every other packet type uses
plain big-endian; and the transform — the same `swap_field_id` expression
appears verbatim in the parser and the serializer — is an involution, so
parse and serialise invert each other on the field word. -/
theorem field_id_first_two_byte_swap :
    (∀ f : Frame, f.wf → (f.packet_type = 3 ∨ f.packet_type = 6) →
      (f.serialize.drop 5).take 4 =
        [f.field_id / 65536 % 256, f.field_id / 16777216 % 256,
          f.field_id / 256 % 256, f.field_id % 256]) ∧
    (∀ f : Frame, f.wf → ¬(f.packet_type = 3 ∨ f.packet_type = 6) →
      (f.serialize.drop 5).take 4 =
        [f.field_id / 16777216 % 256, f.field_id / 65536 % 256,
          f.field_id / 256 % 256, f.field_id % 256]) ∧
    (∀ id : Nat, id < 2 ^ 32 → swap_field_id (swap_field_id id) = id) := by
  refine ⟨?_, ?_, fun id h => swap_field_id_swap id h⟩
  · intro f hwf hpt
    rw [serialize_field_id_bytes f]
    unfold wireFieldId
    rw [if_pos hpt, beBytes32_swap_field_id f.field_id hwf.2.2.2.1]
  · intro f hwf hpt
    rw [serialize_field_id_bytes f]
    unfold wireFieldId
    rw [if_neg hpt]
    rfl

/-- Witness for the amended C1 theorem at the repository's Get and Ret test
frames and at the test field id. -/
theorem field_id_first_two_byte_swap_witness :
    ((Frame.mk 0 66 6 87890416 []).serialize.drop 5).take 4 =
        [61, 5, 25, 240] ∧
      ((Frame.mk 66 0 7 87890416 [0, 0, 15]).serialize.drop 5).take 4 =
        [5, 61, 25, 240] ∧
      swap_field_id (swap_field_id 87890416) = 87890416 := by
  refine ⟨?_, ?_, field_id_first_two_byte_swap.2.2 87890416 (by decide)⟩
  · have h := field_id_first_two_byte_swap.1 (Frame.mk 0 66 6 87890416 [])
      (by decide) (by decide)
    simpa using h
  · have h := field_id_first_two_byte_swap.2.1 (Frame.mk 66 0 7 87890416 [0, 0, 15])
      (by decide) (by decide)
    simpa using h

/-- Witness for the general C2 round-trip theorem at the repository's own
test frame. -/
theorem frame_parse_serialize_witness :
    Frame.parse (Frame.serialize (Frame.mk 1 2 3 4 [5])) =
      .Ok [] (Frame.mk 1 2 3 4 [5]) :=
  frame_parse_serialize (Frame.mk 1 2 3 4 [5]) (by decide) (by decide)

/-- Witness for the C10 no-SOF theorem on a concrete SOF-free input. -/
theorem frame_parse_no_sof_witness :
    Frame.parse [0xBB, 0, 0, 11, 0, 0, 0, 0, 0, 0, 0] = .Incomplete :=
  frame_parse_no_sof [0xBB, 0, 0, 11, 0, 0, 0, 0, 0, 0, 0] (by decide)

/-- Witness for the C6 length-check theorem: length byte 1 (too small)
after leading garbage fails with `InvalidLength`, and length byte 11 does
not produce an `InvalidLength` failure. -/
theorem frame_parse_invalid_length_iff_witness :
    Frame.parse [7, SOF, 0, 0, 1, 9, 9] = .Failure [1, 9, 9] .InvalidLength ∧
      Frame.parse [7, SOF, 0, 0, 11, 9, 9] ≠
        .Failure [11, 9, 9] .InvalidLength := by
  constructor
  · exact (frame_parse_invalid_length_iff [7] 0 0 1 [9, 9] (by decide)).mpr
      (by decide)
  · intro h
    have h2 := (frame_parse_invalid_length_iff [7] 0 0 11 [9, 9]
      (by decide)).mp h
    omega

/-! ## Helper lemmas about the Schedule codec -/

theorem chunks4_cons4 (a b c d : Nat) (l : List Nat) :
    chunks4 (a :: b :: c :: d :: l) =
      ((a, b, c, d) :: (chunks4 l).1, (chunks4 l).2) := rfl

theorem flattenRanges_append_chunks4
    (rs : List (Nat × Nat × Nat × Nat)) (tail : List Nat) :
    chunks4 (flattenRanges rs ++ tail) =
      (rs ++ (chunks4 tail).1, (chunks4 tail).2) := by
  induction rs with
  | nil => simp [flattenRanges]
  | cons r rest ih =>
    obtain ⟨sh, sm, eh, em⟩ := r
    simp only [flattenRanges, List.cons_append, chunks4_cons4, ih]

theorem chunks4_rem_length_aux (n : Nat) :
    ∀ l : List Nat, l.length ≤ n → (chunks4 l).2.length = l.length % 4 := by
  induction n with
  | zero =>
    intro l h
    match l with
    | [] => simp [chunks4]
  | succ n ih =>
    intro l h
    match l with
    | [] => simp [chunks4]
    | [a] => simp [chunks4]
    | [a, b] => simp [chunks4]
    | [a, b, c] => simp [chunks4]
    | a :: b :: c :: d :: rest =>
      rw [chunks4_cons4, ih rest (by simp at h ⊢; omega)]
      simp only [List.length_cons]
      omega

theorem chunks4_rem_length (l : List Nat) :
    (chunks4 l).2.length = l.length % 4 :=
  chunks4_rem_length_aux l.length l le_rfl

theorem scheduleLoop_error (cs : List (Nat × Nat × Nat × Nat))
    (e : BsbError) (h : scheduleLoop cs = .error e) : e = .InvalidSchedule := by
  induction cs with
  | nil => simp [scheduleLoop] at h
  | cons r rest ih =>
    obtain ⟨sh, sm, eh, em⟩ := r
    simp only [scheduleLoop] at h
    split at h
    · simp at h
    · split at h
      · simp only [Except.error.injEq] at h
        exact h.symm
      · split at h
        · simp only [Except.error.injEq] at h
          subst h
          exact ih (by assumption)
        · simp at h

theorem scheduleLoop_ok_of_valid (rs : List (Nat × Nat × Nat × Nat))
    (h : ∀ r ∈ rs, validRange r) : scheduleLoop rs = .ok rs := by
  induction rs with
  | nil => rfl
  | cons r rest ih =>
    obtain ⟨sh, sm, eh, em⟩ := r
    have hr := h (sh, sm, eh, em) (by simp)
    simp only [validRange] at hr
    simp only [scheduleLoop]
    rw [if_neg (by omega), if_neg (by omega),
      ih fun r hr => h r (List.mem_cons_of_mem _ hr)]

theorem scheduleLoop_terminator (rs : List (Nat × Nat × Nat × Nat))
    (t : Nat × Nat × Nat × Nat) (more : List (Nat × Nat × Nat × Nat))
    (h : ∀ r ∈ rs, validRange r) (ht : t.1 / 128 % 2 = 1) :
    scheduleLoop (rs ++ t :: more) = .ok rs := by
  induction rs with
  | nil =>
    obtain ⟨t0, t1, t2, t3⟩ := t
    simp only [List.nil_append, scheduleLoop]
    rw [if_pos ht]
  | cons r rest ih =>
    obtain ⟨sh, sm, eh, em⟩ := r
    have hr := h (sh, sm, eh, em) (by simp)
    simp only [validRange] at hr
    simp only [List.cons_append, scheduleLoop, List.append_eq]
    rw [if_neg (by omega), if_neg (by omega),
      ih fun r hr => h r (List.mem_cons_of_mem _ hr)]

theorem scheduleLoop_bad (rs : List (Nat × Nat × Nat × Nat))
    (b : Nat × Nat × Nat × Nat) (more : List (Nat × Nat × Nat × Nat))
    (h : ∀ r ∈ rs, validRange r) (hb7 : ¬ b.1 / 128 % 2 = 1)
    (hbad : b.1 > 24 ∨ b.2.2.1 > 24 ∨ b.2.1 > 59 ∨ b.2.2.2 > 59) :
    scheduleLoop (rs ++ b :: more) = .error .InvalidSchedule := by
  induction rs with
  | nil =>
    obtain ⟨b0, b1, b2, b3⟩ := b
    simp only [List.nil_append, scheduleLoop]
    rw [if_neg hb7, if_pos (by simpa using hbad)]
  | cons r rest ih =>
    obtain ⟨sh, sm, eh, em⟩ := r
    have hr := h (sh, sm, eh, em) (by simp)
    simp only [validRange] at hr
    simp only [List.cons_append, scheduleLoop, List.append_eq]
    rw [if_neg (by omega), if_neg (by omega),
      ih fun r hr => h r (List.mem_cons_of_mem _ hr)]

theorem decode_schedule_eq (p : List Nat) :
    Value.decode p .Schedule =
      match scheduleLoop (chunks4 p).1 with
      | .error e => .error e
      | .ok ranges =>
        if (chunks4 p).2 ≠ [] then .error .InvalidSchedule
        else .ok (.Schedule ranges) := rfl

/-- C7: Schedule decoding consumes 4-byte chunks, stops (without emitting)
at the first chunk whose first byte has bit 7 set, fails `InvalidSchedule`
on an emitted out-of-bounds range, and fails `InvalidSchedule` whenever the
payload length is not a multiple of 4. -/
theorem schedule_decode_spec :
    (∀ payload : List Nat, payload.length % 4 ≠ 0 →
      Value.decode payload .Schedule = .error .InvalidSchedule) ∧
    (∀ (rs : List (Nat × Nat × Nat × Nat)) (t0 t1 t2 t3 : Nat)
        (junk : List Nat),
      (∀ r ∈ rs, validRange r) → t0 / 128 % 2 = 1 → junk.length % 4 = 0 →
      Value.decode (flattenRanges rs ++ t0 :: t1 :: t2 :: t3 :: junk)
          .Schedule = .ok (.Schedule rs)) ∧
    (∀ (rs : List (Nat × Nat × Nat × Nat)) (b0 b1 b2 b3 : Nat)
        (rest : List Nat),
      (∀ r ∈ rs, validRange r) → ¬ b0 / 128 % 2 = 1 →
      (b0 > 24 ∨ b2 > 24 ∨ b1 > 59 ∨ b3 > 59) →
      Value.decode (flattenRanges rs ++ b0 :: b1 :: b2 :: b3 :: rest)
          .Schedule = .error .InvalidSchedule) := by
  refine ⟨?_, ?_, ?_⟩
  · intro p hp
    have hrem : (chunks4 p).2 ≠ [] := by
      intro h0
      have hl := chunks4_rem_length p
      rw [h0] at hl
      simp at hl
      omega
    cases hsl : scheduleLoop (chunks4 p).1 with
    | error e =>
      simp only [decode_schedule_eq, hsl]
      rw [scheduleLoop_error _ e hsl]
    | ok ranges =>
      simp only [decode_schedule_eq, hsl]
      rw [if_pos hrem]
  · intro rs t0 t1 t2 t3 junk hval ht hjunk
    have hch := flattenRanges_append_chunks4 rs (t0 :: t1 :: t2 :: t3 :: junk)
    rw [chunks4_cons4] at hch
    have hterm := scheduleLoop_terminator rs (t0, t1, t2, t3)
      (chunks4 junk).1 hval ht
    have hrem : (chunks4 junk).2 = [] :=
      List.length_eq_zero.mp (by rw [chunks4_rem_length junk, hjunk])
    simp only [decode_schedule_eq, hch, hterm, hrem]
    simp
  · intro rs b0 b1 b2 b3 rest hval hb7 hbad
    have hch := flattenRanges_append_chunks4 rs (b0 :: b1 :: b2 :: b3 :: rest)
    rw [chunks4_cons4] at hch
    have hb := scheduleLoop_bad rs (b0, b1, b2, b3) (chunks4 rest).1 hval hb7
      (by simpa using hbad)
    simp only [decode_schedule_eq, hch, hb]

/-- Witness for C7 at concrete payloads: a 3-byte payload (bad residue), a
single valid range plus terminator, and a range with minute 60. -/
theorem schedule_decode_spec_witness :
    Value.decode [6, 50, 7] .Schedule = .error .InvalidSchedule ∧
      Value.decode [6, 50, 7, 10, 152, 0, 24, 0] .Schedule =
        .ok (.Schedule [(6, 50, 7, 10)]) ∧
      Value.decode [6, 50, 7, 60, 152, 0, 24, 0] .Schedule =
        .error .InvalidSchedule := by
  refine ⟨schedule_decode_spec.1 [6, 50, 7] (by decide), ?_, ?_⟩
  · have h := schedule_decode_spec.2.1 [(6, 50, 7, 10)] 152 0 24 0 []
      (by decide) (by decide) (by decide)
    simpa [flattenRanges] using h
  · have h := schedule_decode_spec.2.2 [] 6 50 7 60 [152, 0, 24, 0]
      (by simp) (by decide) (by decide)
    simpa [flattenRanges] using h

/-- C4 counterexample: the calendar-valid `NaiveDateTime` 1899-11-11
09:36:57 matches the DateTime datatype, but its year predates the wire
epoch: encode writes year byte 0 (`(year - 1900).try_into().unwrap_or_default()`),
so decoding the encoding returns year 1900, not the original value. -/
theorem value_roundtrip_counterexample :
    Value.validFor (.DateTime 0 ⟨1899, 11, 11, 9, 36, 57⟩) .DateTime ∧
      Value.decode (Value.encode (.DateTime 0 ⟨1899, 11, 11, 9, 36, 57⟩))
          .DateTime ≠ .ok (.DateTime 0 ⟨1899, 11, 11, 9, 36, 57⟩) :=
  ⟨by decide, by decide⟩

/-- C4 amended: decode ∘ encode is the identity on values valid under their
datatype that are also wire-representable (DateTime year in 1900..=2155,
Float scaling to an integer in 0..=32767 with a nonzero factor — the
invariants §3 of the specification itself states). -/
theorem value_decode_encode (d : Datatype) (tv : Value)
    (hv : tv.validFor d) (hrep : tv.wireRepresentable) :
    Value.decode tv.encode d = .ok tv := by
  cases tv with
  | Setting flag s max =>
    cases d <;> simp only [Value.validFor] at hv
    case Setting m =>
      obtain ⟨hf, hs, hm, hmeq, hsm⟩ := hv
      subst hmeq
      simp only [Value.encode, Value.decode]
      rw [if_neg (by omega)]
  | Number flag v =>
    cases d <;> simp only [Value.validFor] at hv
    case Number =>
      obtain ⟨hf, hval⟩ := hv
      simp only [Value.encode, beBytes16, Value.decode]
      rw [show v / 256 % 256 * 256 + v % 256 = v from by omega]
  | Float flag v fac =>
    cases d <;> simp only [Value.validFor] at hv
    case Float fd =>
      obtain ⟨hf, hfac, hfeq⟩ := hv
      subst hfeq
      obtain ⟨hfpos, n, hn, hvn⟩ := hrep
      simp only [Value.encode]
      have hscaled : f32AsU16 (v * (fac : ℚ)) = n := by
        rw [hvn]
        unfold f32AsU16
        rw [if_neg (not_lt.mpr (Nat.cast_nonneg n))]
        rw [if_neg (not_le.mpr (by exact_mod_cast (by omega : n < 65535)))]
        rw [Int.floor_natCast]
        exact Int.toNat_natCast n
      rw [hscaled]
      simp only [Value.decode]
      have hi16 : i16FromBe (n / 256 % 256) (n % 256) = (n : Int) := by
        unfold i16FromBe
        rw [if_pos (by omega)]
        push_cast
        omega
      rw [hi16]
      have hfac0 : (fac : ℚ) ≠ 0 := Nat.cast_ne_zero.mpr (by omega)
      have hv' : ((n : Int) : ℚ) / (fac : ℚ) = v := by
        push_cast
        rw [← hvn, mul_div_cancel_right₀ v hfac0]
      rw [hv']
  | DateTime flag t =>
    cases d <;> simp only [Value.validFor] at hv
    case DateTime =>
      obtain ⟨hf, hvalid⟩ := hv
      obtain ⟨hvd, hvt⟩ := hvalid
      obtain ⟨hy1, hy2⟩ := hrep
      obtain ⟨year, month, day, hour, minute, second⟩ := t
      simp only at hy1 hy2
      simp only [Value.encode]
      rw [if_pos ⟨by omega, by omega⟩]
      simp only [Value.decode]
      rw [show (1900 : Int) + ((year - 1900).toNat : Int) = year from by omega]
      rw [if_pos hvd, if_pos hvt]
  | Schedule rs =>
    cases d <;> simp only [Value.validFor] at hv
    case Schedule =>
      simp only [Value.encode]
      have hch := flattenRanges_append_chunks4 rs [152, 0, 24, 0]
      rw [show chunks4 [152, 0, 24, 0] = ([(152, 0, 24, 0)], []) from rfl] at hch
      have hterm := scheduleLoop_terminator rs (152, 0, 24, 0) [] hv (by decide)
      simp only [decode_schedule_eq, hch]
      rw [show rs ++ [(152, 0, 24, 0)] = rs ++ (152, 0, 24, 0) :: [] from rfl]
      rw [hterm]
      simp

/-- Witness for the amended C4 theorem at the repository's DateTime test
value 2024-11-11 09:36:57. -/
theorem value_decode_encode_witness :
    Value.validFor (.DateTime 0 ⟨2024, 11, 11, 9, 36, 57⟩) .DateTime ∧
      Value.wireRepresentable (.DateTime 0 ⟨2024, 11, 11, 9, 36, 57⟩) ∧
      Value.decode (Value.encode (.DateTime 0 ⟨2024, 11, 11, 9, 36, 57⟩))
          .DateTime = .ok (.DateTime 0 ⟨2024, 11, 11, 9, 36, 57⟩) :=
  ⟨by decide, by norm_num [Value.wireRepresentable],
    value_decode_encode .DateTime _ (by decide)
      (by norm_num [Value.wireRepresentable])⟩

/-- C5 counterexample: encoding `Float 0.9` with divisor 1 produces the
scaled bytes of 0 (`as u16` truncates toward zero), while rounding the
scaled value 0.9 to the nearest integer with ties to even gives 1. -/
theorem float_encode_rounding_counterexample :
    Value.encode (.Float 0 (9 / 10) 1) = [0, 0, 0] ∧
      roundHalfEven ((9 : ℚ) / 10 * ((1 : Nat) : ℚ)) = 1 ∧
      ([0, 0, 0] : List Nat) ≠ 0 :: beBytes16 (Int.toNat 1) := by
  refine ⟨?_, ?_, by decide⟩
  · norm_num [Value.encode, f32AsU16]
  · norm_num [roundHalfEven]

/-- The `as u16` cast of the scaled float equals clamping the floor into
`0..=65535`. -/
theorem f32AsU16_eq_clamp (q : ℚ) :
    f32AsU16 q = (max 0 (min 65535 ⌊q⌋)).toNat := by
  unfold f32AsU16
  split_ifs with h1 h2
  · have hfl : ⌊q⌋ < 0 := Int.floor_lt.mpr (by exact_mod_cast h1)
    omega
  · have hfl : (65535 : Int) ≤ ⌊q⌋ := Int.le_floor.mpr (by exact_mod_cast h2)
    omega
  · have h0 : (0 : Int) ≤ ⌊q⌋ := Int.floor_nonneg.mpr (not_lt.mp h1)
    have h6 : ⌊q⌋ < 65535 := Int.floor_lt.mpr (by exact_mod_cast not_le.mp h2)
    omega

/-- C5 amended: for every Float value, encode produces `[flag, hi, lo]`
where `hi, lo` are the big-endian bytes of the 16-bit word obtained by
TRUNCATING the scaled value `v·d` toward zero, saturating into
`0..=65535` (the semantics of Rust's `as u16` float cast), not by rounding
to nearest. -/
theorem float_encode_truncation (flag : Nat) (v : ℚ) (factor : Nat) :
    Value.encode (.Float flag v factor) =
      flag :: beBytes16 ((max 0 (min 65535 ⌊v * (factor : ℚ)⌋)).toNat) := by
  simp only [Value.encode, beBytes16, f32AsU16_eq_clamp]

/-- C3 counterexample: `FieldValue::new` accepts a `Setting` value for the
registered `Float(10)` field `water_pressure` — there is no datatype check
and no `DatatypeMismatch` variant in the error enum at all. -/
theorem field_value_new_no_datatype_check :
    FieldValue.new 87890416 (.Setting 0 1 2) =
        .ok ⟨87890416, .Setting 0 1 2⟩ ∧
      (BsbField.by_id 87890416).map BsbField.datatype = some (.Float 10) ∧
      (Value.Setting 0 1 2).datatype ≠ .Float 10 :=
  ⟨by decide, by decide, by decide⟩

/-- C3 amended: `FieldValue::new` fails with the unknown-field error
(`UnsupportedField`) exactly when the id is not registered, and succeeds
for every known id REGARDLESS of the value's datatype, storing the
registered field's id with the value unchanged. -/
theorem field_value_new_spec (field_id : Nat) (value : Value) :
    (BsbField.by_id field_id = none →
      FieldValue.new field_id value = .error .UnsupportedField) ∧
    (∀ fld, BsbField.by_id field_id = some fld →
      FieldValue.new field_id value = .ok ⟨fld.id, value⟩) := by
  constructor
  · intro h
    simp [FieldValue.new, h]
  · intro fld h
    simp [FieldValue.new, h]

/-- Witness for the amended C3 theorem: id 1 is unregistered, id 87890416
is `water_pressure`. -/
theorem field_value_new_spec_witness :
    FieldValue.new 1 (.Number 0 0) = .error .UnsupportedField ∧
      FieldValue.new 87890416 (.Number 0 5) = .ok ⟨87890416, .Number 0 5⟩ := by
  constructor
  · exact (field_value_new_spec 1 (.Number 0 0)).1 (by decide)
  · have h := (field_value_new_spec 87890416 (.Number 0 5)).2
      ⟨0x053D19F0, "water_pressure".data, 0, .Float 10,
        "system/water_pressure".data⟩ (by decide)
    simpa using h

/-- C9: `FieldValue::from_str` stores the caller-supplied `field_id`
verbatim: for the known field name `operating_mode` and ANY unregistered
id, it returns `Ok` with a `FieldValue` whose id does not resolve in the
registry, so the `field()` accessor panics (modelled: returns `none`). -/
theorem from_str_keeps_unchecked_field_id (id : Nat)
    (h : BsbField.by_id id = none) :
    FieldValue.from_str ("operating_mode: 1".data) id =
        .ok ⟨id, .Setting 0 1 2⟩ ∧
      (FieldValue.mk id (.Setting 0 1 2)).field = none := by
  constructor
  · rfl
  · simp [FieldValue.field, h]

/-- Witness for C9 at the unregistered id 1. -/
theorem from_str_keeps_unchecked_field_id_witness :
    FieldValue.from_str ("operating_mode: 1".data) 1 =
        .ok ⟨1, .Setting 0 1 2⟩ ∧
      (FieldValue.mk 1 (.Setting 0 1 2)).field = none :=
  from_str_keeps_unchecked_field_id 1 (by decide)

/-! ## Helper lemmas about the text codec -/

theorem digitChar_isDigit (n : Nat) (h : n < 10) :
    isDigitChar (digitChar n) = true := by
  interval_cases n <;> decide

theorem digitChar_val (n : Nat) (h : n < 10) :
    (digitChar n).toNat - 48 = n := by
  interval_cases n <;> decide

theorem charsVal_append_digit (l : List Char) (c : Char) :
    charsVal (l ++ [c]) = charsVal l * 10 + (c.toNat - 48) := by
  simp [charsVal, List.foldl_append]

theorem natCharsGo_spec (fuel : Nat) :
    ∀ n : Nat, n < fuel →
      natCharsGo fuel n ≠ [] ∧ (∀ c ∈ natCharsGo fuel n, isDigitChar c) ∧
        charsVal (natCharsGo fuel n) = n := by
  induction fuel with
  | zero => intro n h; omega
  | succ fuel ih =>
    intro n h
    by_cases h10 : n < 10
    · simp only [natCharsGo, if_pos h10]
      refine ⟨by simp, ?_, ?_⟩
      · intro c hc
        simp only [List.mem_singleton] at hc
        subst hc
        exact digitChar_isDigit n h10
      · simp only [charsVal, List.foldl_cons, List.foldl_nil, Nat.zero_mul,
          Nat.zero_add]
        exact digitChar_val n h10
    · have hdiv : n / 10 < fuel := by omega
      obtain ⟨hne, hdig, hval⟩ := ih (n / 10) hdiv
      simp only [natCharsGo, if_neg h10]
      refine ⟨by simp, ?_, ?_⟩
      · intro c hc
        rcases List.mem_append.mp hc with hc | hc
        · exact hdig c hc
        · simp only [List.mem_singleton] at hc
          subst hc
          exact digitChar_isDigit (n % 10) (by omega)
      · rw [charsVal_append_digit, hval, digitChar_val (n % 10) (by omega)]
        omega

theorem natChars_spec (n : Nat) :
    natChars n ≠ [] ∧ (∀ c ∈ natChars n, isDigitChar c) ∧
      charsVal (natChars n) = n :=
  natCharsGo_spec (n + 1) n (by omega)

theorem isDigitChar_facts (c : Char) (h : isDigitChar c) :
    isWsChar c = false ∧ c ≠ ':' ∧ c ≠ ',' ∧ c ≠ '-' ∧ c ≠ 'T' ∧ c ≠ '+' := by
  refine ⟨?_, ?_, ?_, ?_, ?_, ?_⟩
  · by_contra hws
    have hws2 : isWsChar c = true := by
      cases hb : isWsChar c
      · exact absurd hb hws
      · rfl
    simp only [isWsChar, Bool.or_eq_true, decide_eq_true_eq] at hws2
    rcases hws2 with hc | hc | hc | hc <;> subst hc <;> revert h <;> decide
  all_goals intro hc; subst hc; revert h; decide

theorem stripPlus_of_digits (s : List Char) (h : ∀ c ∈ s, isDigitChar c) :
    stripPlus s = s := by
  cases s with
  | nil => rfl
  | cons c rest =>
    have hc := isDigitChar_facts c (h c (by simp))
    unfold stripPlus
    split
    · rename_i heq
      exact absurd (List.cons.inj heq).1 hc.2.2.2.2.2
    · rfl

theorem parseNatAll_digits (s : List Char) (hne : s ≠ [])
    (h : ∀ c ∈ s, isDigitChar c) : parseNatAll s = some (charsVal s) := by
  unfold parseNatAll
  rw [if_pos ⟨hne, fun c hc => h c hc⟩]

theorem parse_u8_natChars (n : Nat) (h : n ≤ 255) :
    parse_u8 (natChars n) = some n := by
  obtain ⟨hne, hdig, hval⟩ := natChars_spec n
  unfold parse_u8
  rw [stripPlus_of_digits _ hdig]
  simp only [parseNatAll_digits _ hne hdig, hval]
  rw [if_pos h]

theorem parse_u16_natChars (n : Nat) (h : n ≤ 65535) :
    parse_u16 (natChars n) = some n := by
  obtain ⟨hne, hdig, hval⟩ := natChars_spec n
  unfold parse_u16
  rw [stripPlus_of_digits _ hdig]
  simp only [parseNatAll_digits _ hne hdig, hval]
  rw [if_pos h]

theorem splitOnce_cons (sep c : Char) (rest : List Char) :
    splitOnce sep (c :: rest) =
      if c = sep then some ([], rest)
      else
        match splitOnce sep rest with
        | some (a, b) => some (c :: a, b)
        | none => none := rfl

theorem splitOnce_append (sep : Char) (a b : List Char)
    (h : ∀ c ∈ a, c ≠ sep) : splitOnce sep (a ++ sep :: b) = some (a, b) := by
  induction a with
  | nil => simp [splitOnce]
  | cons c a ih =>
    have hc : c ≠ sep := h c (by simp)
    rw [List.cons_append, splitOnce_cons, if_neg hc,
      ih fun x hx => h x (by simp [hx])]

theorem dropWhile_eq_self_of_forall (p : Char → Bool) (s : List Char)
    (h : ∀ c ∈ s, p c = false) : s.dropWhile p = s := by
  cases s with
  | nil => rfl
  | cons c rest =>
    rw [List.dropWhile_cons, if_neg (by simp [h c (by simp)])]

theorem trimChars_eq_self (s : List Char)
    (h : ∀ c ∈ s, isWsChar c = false) : trimChars s = s := by
  unfold trimChars
  rw [dropWhile_eq_self_of_forall _ s h,
    dropWhile_eq_self_of_forall _ s.reverse
      (fun c hc => h c (List.mem_reverse.mp hc)),
    List.reverse_reverse]

theorem trimChars_space (s : List Char)
    (h : ∀ c ∈ s, isWsChar c = false) : trimChars (' ' :: s) = s := by
  unfold trimChars
  rw [List.dropWhile_cons, if_pos (by decide),
    dropWhile_eq_self_of_forall _ s h,
    dropWhile_eq_self_of_forall _ s.reverse
      (fun c hc => h c (List.mem_reverse.mp hc)),
    List.reverse_reverse]

theorem digitChar_digit (n : Nat) : isDigitChar (digitChar n) = true := by
  unfold digitChar
  split <;> decide

theorem takeWhile_append_of (p : Char → Bool) (a : List Char) (c : Char)
    (b : List Char) (ha : ∀ x ∈ a, p x) (hc : p c = false) :
    (a ++ c :: b).takeWhile p = a := by
  induction a with
  | nil => simp [List.takeWhile_cons, hc]
  | cons x a ih =>
    rw [List.cons_append, List.takeWhile_cons, if_pos (ha x (by simp)),
      ih fun y hy => ha y (by simp [hy])]

theorem dropWhile_append_of (p : Char → Bool) (a : List Char) (c : Char)
    (b : List Char) (ha : ∀ x ∈ a, p x) (hc : p c = false) :
    (a ++ c :: b).dropWhile p = c :: b := by
  induction a with
  | nil => simp [List.dropWhile_cons, hc]
  | cons x a ih =>
    rw [List.cons_append, List.dropWhile_cons, if_pos (ha x (by simp))]
    exact ih fun y hy => ha y (by simp [hy])

theorem spanDigits_append (a : List Char) (c : Char) (b : List Char)
    (ha : ∀ x ∈ a, isDigitChar x) (hc : isDigitChar c = false) :
    spanDigits (a ++ c :: b) = (a, c :: b) := by
  unfold spanDigits
  rw [takeWhile_append_of _ a c b ha hc, dropWhile_append_of _ a c b ha hc]

theorem takeWhile_eq_self_of_forall (p : Char → Bool) (a : List Char)
    (ha : ∀ x ∈ a, p x) : a.takeWhile p = a := by
  induction a with
  | nil => rfl
  | cons x a ih =>
    rw [List.takeWhile_cons, if_pos (ha x (by simp)),
      ih fun y hy => ha y (by simp [hy])]

theorem dropWhile_eq_nil_of_forall (p : Char → Bool) (a : List Char)
    (ha : ∀ x ∈ a, p x) : a.dropWhile p = [] := by
  induction a with
  | nil => rfl
  | cons x a ih =>
    rw [List.dropWhile_cons, if_pos (ha x (by simp))]
    exact ih fun y hy => ha y (by simp [hy])

theorem spanDigits_all (a : List Char) (ha : ∀ x ∈ a, isDigitChar x) :
    spanDigits a = (a, []) := by
  unfold spanDigits
  rw [takeWhile_eq_self_of_forall _ a ha, dropWhile_eq_nil_of_forall _ a ha]

theorem charsVal_cons_zero (l : List Char) :
    charsVal ('0' :: l) = charsVal l := rfl

theorem pad2_spec (n : Nat) :
    pad2 n ≠ [] ∧ (∀ c ∈ pad2 n, isDigitChar c) ∧ charsVal (pad2 n) = n := by
  obtain ⟨hne, hdig, hval⟩ := natChars_spec n
  unfold pad2
  split
  · refine ⟨by simp, ?_, ?_⟩
    · intro c hc
      rcases List.mem_cons.mp hc with hc | hc
      · subst hc; decide
      · exact hdig c hc
    · rw [charsVal_cons_zero, hval]
  · exact ⟨hne, hdig, hval⟩

theorem pad4_spec (n : Nat) :
    pad4 n ≠ [] ∧ (∀ c ∈ pad4 n, isDigitChar c) ∧ charsVal (pad4 n) = n := by
  obtain ⟨hne, hdig, hval⟩ := natChars_spec n
  unfold pad4
  split
  · refine ⟨by simp, ?_, ?_⟩
    · intro c hc
      rcases List.mem_cons.mp hc with hc | hc
      · subst hc; decide
      rcases List.mem_cons.mp hc with hc | hc
      · subst hc; decide
      rcases List.mem_cons.mp hc with hc | hc
      · subst hc; decide
      · exact hdig c hc
    · rw [charsVal_cons_zero, charsVal_cons_zero, charsVal_cons_zero, hval]
  · split
    · refine ⟨by simp, ?_, ?_⟩
      · intro c hc
        rcases List.mem_cons.mp hc with hc | hc
        · subst hc; decide
        rcases List.mem_cons.mp hc with hc | hc
        · subst hc; decide
        · exact hdig c hc
      · rw [charsVal_cons_zero, charsVal_cons_zero, hval]
    · split
      · refine ⟨by simp, ?_, ?_⟩
        · intro c hc
          rcases List.mem_cons.mp hc with hc | hc
          · subst hc; decide
          · exact hdig c hc
        · rw [charsVal_cons_zero, hval]
      · exact ⟨hne, hdig, hval⟩

theorem parseDateTime_dtChars (t : NaiveDT) (hv : t.valid)
    (h1 : 1900 ≤ t.year) (h2 : t.year ≤ 2155) :
    parseDateTime (dtChars t) = some t := by
  obtain ⟨year, month, day, hour, minute, second⟩ := t
  simp only [NaiveDT.valid, NaiveDT.validDate, NaiveDT.validTime] at hv
  obtain ⟨⟨hm1, hm2, hd1, hd2⟩, hh, hmi, hs⟩ := hv
  simp only at h1 h2 hd2
  have hyc : yearChars year = pad4 year.toNat := by
    unfold yearChars
    rw [if_neg (by omega)]
  obtain ⟨hy_ne, hy_dig, hy_val⟩ := pad4_spec year.toNat
  obtain ⟨p2ne, p2dig, p2val⟩ := pad2_spec month
  obtain ⟨p3ne, p3dig, p3val⟩ := pad2_spec day
  obtain ⟨p4ne, p4dig, p4val⟩ := pad2_spec hour
  obtain ⟨p5ne, p5dig, p5val⟩ := pad2_spec minute
  obtain ⟨p6ne, p6dig, p6val⟩ := pad2_spec second
  unfold dtChars
  simp only [hyc, List.append_assoc, List.cons_append]
  have e1 := spanDigits_append (pad4 year.toNat) '-'
    (pad2 month ++ '-' :: pad2 day ++ 'T' :: pad2 hour ++ ':' :: pad2 minute
      ++ ':' :: pad2 second) hy_dig (by decide)
  have e2 := spanDigits_append (pad2 month) '-'
    (pad2 day ++ 'T' :: pad2 hour ++ ':' :: pad2 minute ++ ':' :: pad2 second)
    p2dig (by decide)
  have e3 := spanDigits_append (pad2 day) 'T'
    (pad2 hour ++ ':' :: pad2 minute ++ ':' :: pad2 second) p3dig (by decide)
  have e4 := spanDigits_append (pad2 hour) ':'
    (pad2 minute ++ ':' :: pad2 second) p4dig (by decide)
  have e5 := spanDigits_append (pad2 minute) ':' (pad2 second) p5dig
    (by decide)
  have e6 := spanDigits_all (pad2 second) p6dig
  simp only [List.append_assoc, List.cons_append] at e1 e2 e3 e4 e5
  simp only [parseDateTime, e1, e2, e3, e4, e5, e6]
  rw [if_pos ⟨hy_ne, p2ne, p3ne, p4ne, p5ne, p6ne, trivial⟩]
  simp only [hy_val, p2val, p3val, p4val, p5val, p6val]
  rw [show ((year.toNat : Int)) = year from by omega]
  rw [if_pos ⟨⟨hm1, hm2, hd1, hd2⟩, hh, hmi, hs⟩]

theorem splitAll_cons (sep c : Char) (rest : List Char) :
    splitAll sep (c :: rest) =
      if c = sep then [] :: splitAll sep rest
      else
        match splitAll sep rest with
        | p :: tail => (c :: p) :: tail
        | [] => [[c]] := rfl

theorem splitAll_ne_nil (sep : Char) (s : List Char) :
    splitAll sep s ≠ [] := by
  induction s with
  | nil => simp [splitAll]
  | cons c rest ih =>
    rw [splitAll_cons]
    split
    · simp
    · split
      · simp
      · simp

theorem splitAll_no_sep (sep : Char) (s : List Char)
    (h : ∀ c ∈ s, c ≠ sep) : splitAll sep s = [s] := by
  induction s with
  | nil => rfl
  | cons c rest ih =>
    rw [splitAll_cons, if_neg (h c (by simp)),
      ih fun x hx => h x (by simp [hx])]

theorem splitAll_sep_append (sep : Char) (p t : List Char)
    (hp : ∀ c ∈ p, c ≠ sep) :
    splitAll sep (p ++ sep :: t) = p :: splitAll sep t := by
  induction p with
  | nil => simp [splitAll_cons]
  | cons c p ih =>
    rw [List.cons_append, splitAll_cons, if_neg (hp c (by simp)),
      ih fun x hx => hp x (by simp [hx])]

theorem rangeChars_chars (r : Nat × Nat × Nat × Nat) :
    ∀ c ∈ rangeChars r, c ≠ ',' ∧ isWsChar c = false := by
  intro c hc
  unfold rangeChars at hc
  have hdig : isDigitChar c → c ≠ ',' ∧ isWsChar c = false := fun h =>
    ⟨(isDigitChar_facts c h).2.2.1, (isDigitChar_facts c h).1⟩
  rcases List.mem_append.mp hc with hc | hc
  · exact hdig ((natChars_spec r.1).2.1 c hc)
  rcases List.mem_cons.mp hc with hc | hc
  · subst hc; exact ⟨by decide, by decide⟩
  rcases List.mem_append.mp hc with hc | hc
  · exact hdig ((natChars_spec r.2.1).2.1 c hc)
  rcases List.mem_cons.mp hc with hc | hc
  · subst hc; exact ⟨by decide, by decide⟩
  rcases List.mem_append.mp hc with hc | hc
  · exact hdig ((natChars_spec r.2.2.1).2.1 c hc)
  rcases List.mem_cons.mp hc with hc | hc
  · subst hc; exact ⟨by decide, by decide⟩
  · exact hdig ((natChars_spec r.2.2.2).2.1 c hc)

theorem parseRanges_cons (r0 : List Char) (parts : List (List Char)) :
    parseRanges (r0 :: parts) =
      match splitOnce ':' r0 with
      | none => .error .InvalidSchedule
      | some (shs, r1) =>
        match splitOnce '-' r1 with
        | none => .error .InvalidSchedule
        | some (sms, r2) =>
          match splitOnce ':' r2 with
          | none => .error .InvalidSchedule
          | some (ehs, ems) =>
            match parse_u8 shs, parse_u8 sms, parse_u8 ehs, parse_u8 ems with
            | some sh, some sm, some eh, some em =>
              if sh > 24 ∨ eh > 24 ∨ sm > 59 ∨ em > 59 then
                .error .InvalidSchedule
              else
                match parseRanges parts with
                | .error e => .error e
                | .ok rs => .ok ((sh, sm, eh, em) :: rs)
            | _, _, _, _ => .error .ParseIntError := rfl

theorem parseRanges_rangeChars (r : Nat × Nat × Nat × Nat)
    (parts : List (List Char)) (rs : List (Nat × Nat × Nat × Nat))
    (hvr : validRange r) (hps : parseRanges parts = .ok rs) :
    parseRanges (rangeChars r :: parts) = .ok (r :: rs) := by
  obtain ⟨sh, sm, eh, em⟩ := r
  simp only [validRange] at hvr
  have hsh := natChars_spec sh
  have hsm := natChars_spec sm
  have heh := natChars_spec eh
  have hem := natChars_spec em
  have s1 : splitOnce ':' (natChars sh ++ ':' ::
      (natChars sm ++ '-' :: (natChars eh ++ ':' :: natChars em))) =
      some (natChars sh, natChars sm ++ '-' :: (natChars eh ++ ':' :: natChars em)) :=
    splitOnce_append ':' _ _ fun c hc =>
      (isDigitChar_facts c (hsh.2.1 c hc)).2.1
  have s2 : splitOnce '-' (natChars sm ++ '-' :: (natChars eh ++ ':' :: natChars em)) =
      some (natChars sm, natChars eh ++ ':' :: natChars em) :=
    splitOnce_append '-' _ _ fun c hc =>
      (isDigitChar_facts c (hsm.2.1 c hc)).2.2.2.1
  have s3 : splitOnce ':' (natChars eh ++ ':' :: natChars em) =
      some (natChars eh, natChars em) :=
    splitOnce_append ':' _ _ fun c hc =>
      (isDigitChar_facts c (heh.2.1 c hc)).2.1
  rw [parseRanges_cons]
  unfold rangeChars
  simp only [s1, s2, s3, parse_u8_natChars sh (by omega),
    parse_u8_natChars sm (by omega), parse_u8_natChars eh (by omega),
    parse_u8_natChars em (by omega), hps]
  rw [if_neg (by omega)]

theorem parseRanges_scheduleChars (rs : List (Nat × Nat × Nat × Nat))
    (hne : rs ≠ []) (hval : ∀ r ∈ rs, validRange r) :
    parseRanges (splitAll ',' (scheduleChars rs)) = .ok rs := by
  induction rs with
  | nil => exact absurd rfl hne
  | cons r rest ih =>
    cases rest with
    | nil =>
      rw [show scheduleChars [r] = rangeChars r from rfl,
        splitAll_no_sep ',' _ fun c hc => (rangeChars_chars r c hc).1,
        parseRanges_rangeChars r [] [] (hval r (by simp)) rfl]
    | cons r2 rest2 =>
      rw [show scheduleChars (r :: r2 :: rest2) =
          rangeChars r ++ ',' :: scheduleChars (r2 :: rest2) from rfl,
        splitAll_sep_append ',' _ _ fun c hc => (rangeChars_chars r c hc).1,
        parseRanges_rangeChars r _ (r2 :: rest2) (hval r (by simp))
          (ih (by simp) fun x hx => hval x (by simp [hx]))]

theorem forall_mem_append_chars (p : Char → Prop) (a b : List Char)
    (ha : ∀ c ∈ a, p c) (hb : ∀ c ∈ b, p c) : ∀ c ∈ a ++ b, p c := by
  intro c hc
  rcases List.mem_append.mp hc with hc | hc
  · exact ha c hc
  · exact hb c hc

theorem forall_mem_cons_chars (p : Char → Prop) (x : Char) (l : List Char)
    (hx : p x) (hl : ∀ c ∈ l, p c) : ∀ c ∈ x :: l, p c := by
  intro c hc
  rcases List.mem_cons.mp hc with hc | hc
  · exact hc ▸ hx
  · exact hl c hc

theorem digits_no_ws (l : List Char) (h : ∀ c ∈ l, isDigitChar c) :
    ∀ c ∈ l, isWsChar c = false :=
  fun c hc => (isDigitChar_facts c (h c hc)).1

theorem pad2_no_ws (n : Nat) : ∀ c ∈ pad2 n, isWsChar c = false :=
  digits_no_ws _ (pad2_spec n).2.1

theorem pad4_no_ws (n : Nat) : ∀ c ∈ pad4 n, isWsChar c = false :=
  digits_no_ws _ (pad4_spec n).2.1

theorem yearChars_no_ws (y : Int) : ∀ c ∈ yearChars y, isWsChar c = false := by
  unfold yearChars
  split
  · exact forall_mem_cons_chars _ _ _ (by decide) (pad4_no_ws _)
  · exact pad4_no_ws _

theorem dtChars_no_ws (t : NaiveDT) : ∀ c ∈ dtChars t, isWsChar c = false := by
  unfold dtChars
  simp only [List.append_assoc]
  refine forall_mem_append_chars _ _ _ (yearChars_no_ws t.year) ?_
  refine forall_mem_cons_chars _ _ _ (by decide) ?_
  refine forall_mem_append_chars _ _ _ (pad2_no_ws t.month) ?_
  refine forall_mem_cons_chars _ _ _ (by decide) ?_
  refine forall_mem_append_chars _ _ _ (pad2_no_ws t.day) ?_
  refine forall_mem_cons_chars _ _ _ (by decide) ?_
  refine forall_mem_append_chars _ _ _ (pad2_no_ws t.hour) ?_
  refine forall_mem_cons_chars _ _ _ (by decide) ?_
  refine forall_mem_append_chars _ _ _ (pad2_no_ws t.minute) ?_
  exact forall_mem_cons_chars _ _ _ (by decide) (pad2_no_ws t.second)

theorem fracChars_no_ws (num den fuel : Nat) :
    ∀ c ∈ fracChars num den fuel, isWsChar c = false := by
  induction fuel generalizing num with
  | zero => intro c hc; simp [fracChars] at hc
  | succ fuel ih =>
    unfold fracChars
    split
    · intro c hc; simp at hc
    · exact forall_mem_cons_chars _ _ _
        ((isDigitChar_facts _ (digitChar_digit _)).1) (ih _)

theorem ratChars_no_ws (q : ℚ) : ∀ c ∈ ratChars q, isWsChar c = false := by
  unfold ratChars
  simp only [List.append_assoc]
  refine forall_mem_append_chars _ _ _ ?_ ?_
  · split
    · intro c hc
      simp only [List.mem_singleton] at hc
      subst hc; decide
    · intro c hc
      exact absurd hc (List.not_mem_nil c)
  · refine forall_mem_append_chars _ _ _
      (digits_no_ws _ (natChars_spec _).2.1) ?_
    split
    · intro c hc
      exact absurd hc (List.not_mem_nil c)
    · exact forall_mem_cons_chars _ _ _ (by decide) (fracChars_no_ws _ _ _)

theorem scheduleChars_no_ws (rs : List (Nat × Nat × Nat × Nat)) :
    ∀ c ∈ scheduleChars rs, isWsChar c = false := by
  induction rs with
  | nil => intro c hc; simp [scheduleChars] at hc
  | cons r rest ih =>
    cases rest with
    | nil =>
      intro c hc
      exact (rangeChars_chars r c hc).2
    | cons r2 rest2 =>
      rw [show scheduleChars (r :: r2 :: rest2) =
        rangeChars r ++ ',' :: scheduleChars (r2 :: rest2) from rfl]
      refine forall_mem_append_chars _ _ _
        (fun c hc => (rangeChars_chars r c hc).2) ?_
      exact forall_mem_cons_chars _ _ _ (by decide) ih

theorem valueChars_no_ws (v : Value) :
    ∀ c ∈ valueChars v, isWsChar c = false := by
  cases v with
  | Setting flag s max => exact digits_no_ws _ (natChars_spec s).2.1
  | Number flag n => exact digits_no_ws _ (natChars_spec n).2.1
  | Float flag q fac => exact ratChars_no_ws q
  | DateTime flag t => exact dtChars_no_ws t
  | Schedule rs => exact scheduleChars_no_ws rs

theorem value_from_str_valueChars (v : Value) (d : Datatype)
    (hv : v.validFor d) (hfz : v.flagZero)
    (hnf : ∀ f q fac, v ≠ .Float f q fac)
    (hsch : ∀ rs, v = .Schedule rs → rs ≠ [])
    (hyear : ∀ fl t, v = .DateTime fl t → 1900 ≤ t.year ∧ t.year ≤ 2155) :
    Value.from_str (valueChars v) d = .ok v := by
  cases v with
  | Setting flag s max =>
    cases d <;> simp only [Value.validFor] at hv
    case Setting m =>
      obtain ⟨hf, hs, hm, hmeq, hsm⟩ := hv
      subst hmeq
      simp only [Value.flagZero] at hfz
      subst hfz
      simp only [valueChars, Value.from_str, parse_u8_natChars s (by omega)]
      rw [if_neg (by omega)]
  | Number flag n =>
    cases d <;> simp only [Value.validFor] at hv
    case Number =>
      obtain ⟨hf, hn⟩ := hv
      simp only [Value.flagZero] at hfz
      subst hfz
      simp only [valueChars, Value.from_str, parse_u16_natChars n (by omega)]
  | Float flag q fac => exact absurd rfl (hnf flag q fac)
  | DateTime flag t =>
    cases d <;> simp only [Value.validFor] at hv
    case DateTime =>
      obtain ⟨hf, hvalid⟩ := hv
      simp only [Value.flagZero] at hfz
      subst hfz
      obtain ⟨h1, h2⟩ := hyear 0 t rfl
      simp only [valueChars, Value.from_str,
        parseDateTime_dtChars t hvalid h1 h2]
  | Schedule rs =>
    cases d <;> simp only [Value.validFor] at hv
    case Schedule =>
      have hne := hsch rs rfl
      simp only [valueChars, Value.from_str,
        parseRanges_scheduleChars rs hne hv]

/-- C8 counterexample: the flag byte is not preserved by the textual round
trip.  The field-value `(operating_mode, Setting with flag 1, value 0)`
renders as `"operating_mode: 0"`, and parsing that back (with the original
field id) yields the Setting with flag 0 — a different `FieldValue`. -/
theorem field_value_text_roundtrip_counterexample :
    FieldValue.render ⟨222103850, .Setting 1 0 2⟩ =
        some ("operating_mode: 0".data) ∧
      FieldValue.from_str ("operating_mode: 0".data) 222103850 =
        .ok ⟨222103850, .Setting 0 0 2⟩ ∧
      (FieldValue.mk 222103850 (.Setting 0 0 2)) ≠
        (FieldValue.mk 222103850 (.Setting 1 0 2)) :=
  ⟨by decide, by decide, by decide⟩

/-- C8 amended: the textual render round-trips through
`FieldValue::from_str` (with the original field id supplied) for every
field-value whose id is registered, whose value is valid for the
registered datatype with flag 0 (the flag is not rendered and parses back
as 0), is not a Float (floating-point shortest-decimal text), has at least
one range if a Schedule (an empty schedule renders as `""`, which fails to
parse), and has a wire-era year (1900..=2155) if a DateTime. -/
theorem field_value_text_roundtrip (fv : FieldValue) (fld : BsbField)
    (hid : BsbField.by_id fv.field_id = some fld)
    (hv : fv.value.validFor fld.datatype)
    (hfz : fv.value.flagZero)
    (hnf : ∀ f q fac, fv.value ≠ .Float f q fac)
    (hsch : ∀ rs, fv.value = .Schedule rs → rs ≠ [])
    (hyear : ∀ fl t, fv.value = .DateTime fl t →
      1900 ≤ t.year ∧ t.year ≤ 2155) :
    FieldValue.render fv =
        some (fld.name ++ ':' :: ' ' :: valueChars fv.value) ∧
      FieldValue.from_str (fld.name ++ ':' :: ' ' :: valueChars fv.value)
        fv.field_id = .ok fv := by
  obtain ⟨fid, v⟩ := fv
  simp only at hid hv hfz hnf hsch hyear
  constructor
  · simp [FieldValue.render, hid]
  · have hmem : fld ∈ FIELDS := List.mem_of_find?_eq_some hid
    have hname : (∀ c ∈ fld.name, c ≠ ':') ∧
        (∀ c ∈ fld.name, isWsChar c = false) ∧
        BsbField.by_name fld.name = some fld := by
      fin_cases hmem <;> exact ⟨by decide, by decide, by decide⟩
    obtain ⟨hn1, hn2, hn3⟩ := hname
    simp only [FieldValue.from_str, splitOnce_append ':' fld.name _ hn1,
      trimChars_eq_self fld.name hn2, hn3,
      trimChars_space _ (valueChars_no_ws v),
      value_from_str_valueChars v fld.datatype hv hfz hnf hsch hyear]

/-- Witness for the amended C8 theorem at the Setting field
`operating_mode` with value 1 and flag 0. -/
theorem field_value_text_roundtrip_witness :
    FieldValue.from_str ("operating_mode: 1".data) 222103850 =
      .ok ⟨222103850, .Setting 0 1 2⟩ := by
  have h := (field_value_text_roundtrip ⟨222103850, .Setting 0 1 2⟩
    ⟨222103850, "operating_mode".data, 0, .Setting 2,
      "system/operating_mode".data⟩
    (by decide) (by decide) (by decide)
    (by intro f q fac h; cases h)
    (by intro rs h; cases h)
    (by intro fl t h; cases h)).2
  have e : "operating_mode: 1".data =
      "operating_mode".data ++ ':' :: ' ' ::
        valueChars (Value.Setting 0 1 2) := by decide
  rw [e]
  exact h
